import Mathlib

/-!
Verification of the JSON extraction/repair routine in
`src/utils/jsonParser.ts` (`parseLLMJson` and its helper closures).

Strings are modelled as `List Char`.  JavaScript's `JSON.parse` is modelled
by `jsonParse` below (standard JSON grammar; a parse error is `none`).
Each helper closure of the source file is translated to a Lean definition of
the same name.  Notes on the translation:

* `unwrapResponse` is the identity function (source line 364:
  `const unwrapResponse = (obj: any) => obj;`), so `unwrapped` is `parsed`.
* The `jsonCache` map is pure memoization keyed by the input string and is
  observationally the identity; it is omitted.
* `Math.floor(n * 0.8)` and `Math.floor(n * 0.9)` are modelled as
  `n * 4 / 5` and `n * 9 / 10` on `Nat`; for every length arising in this
  development the double-precision product is not an integer and is within
  float accuracy of the rational value, so the floors agree.
* The unbounded `while` loop of the partial-recovery step is given an
  explicit fuel parameter; `none` means the fuel ran out.
-/

namespace JParser

abbrev Str := List Char

/-- Values produced by a standard JSON decoder.  Numbers keep their source
lexeme; object fields keep source order. -/
inductive JValue where
  | jnull
  | jbool (b : Bool)
  | jnum (lex : Str)
  | jstr (chars : Str)
  | jarr (elems : List JValue)
  | jobj (fields : List (Str × JValue))
deriving Repr

mutual

def decEqJV : (a b : JValue) → Decidable (a = b)
  | .jnull, .jnull => isTrue rfl
  | .jbool a, .jbool b =>
    match decEq a b with
    | isTrue h => isTrue (by rw [h])
    | isFalse h => isFalse (by intro c; injection c; contradiction)
  | .jnum a, .jnum b =>
    match decEq a b with
    | isTrue h => isTrue (by rw [h])
    | isFalse h => isFalse (by intro c; injection c; contradiction)
  | .jstr a, .jstr b =>
    match decEq a b with
    | isTrue h => isTrue (by rw [h])
    | isFalse h => isFalse (by intro c; injection c; contradiction)
  | .jarr a, .jarr b =>
    match decEqJVList a b with
    | isTrue h => isTrue (by rw [h])
    | isFalse h => isFalse (by intro c; injection c; contradiction)
  | .jobj a, .jobj b =>
    match decEqJVFields a b with
    | isTrue h => isTrue (by rw [h])
    | isFalse h => isFalse (by intro c; injection c; contradiction)
  | .jnull, .jbool _ => isFalse (by intro c; injection c)
  | .jnull, .jnum _ => isFalse (by intro c; injection c)
  | .jnull, .jstr _ => isFalse (by intro c; injection c)
  | .jnull, .jarr _ => isFalse (by intro c; injection c)
  | .jnull, .jobj _ => isFalse (by intro c; injection c)
  | .jbool _, .jnull => isFalse (by intro c; injection c)
  | .jbool _, .jnum _ => isFalse (by intro c; injection c)
  | .jbool _, .jstr _ => isFalse (by intro c; injection c)
  | .jbool _, .jarr _ => isFalse (by intro c; injection c)
  | .jbool _, .jobj _ => isFalse (by intro c; injection c)
  | .jnum _, .jnull => isFalse (by intro c; injection c)
  | .jnum _, .jbool _ => isFalse (by intro c; injection c)
  | .jnum _, .jstr _ => isFalse (by intro c; injection c)
  | .jnum _, .jarr _ => isFalse (by intro c; injection c)
  | .jnum _, .jobj _ => isFalse (by intro c; injection c)
  | .jstr _, .jnull => isFalse (by intro c; injection c)
  | .jstr _, .jbool _ => isFalse (by intro c; injection c)
  | .jstr _, .jnum _ => isFalse (by intro c; injection c)
  | .jstr _, .jarr _ => isFalse (by intro c; injection c)
  | .jstr _, .jobj _ => isFalse (by intro c; injection c)
  | .jarr _, .jnull => isFalse (by intro c; injection c)
  | .jarr _, .jbool _ => isFalse (by intro c; injection c)
  | .jarr _, .jnum _ => isFalse (by intro c; injection c)
  | .jarr _, .jstr _ => isFalse (by intro c; injection c)
  | .jarr _, .jobj _ => isFalse (by intro c; injection c)
  | .jobj _, .jnull => isFalse (by intro c; injection c)
  | .jobj _, .jbool _ => isFalse (by intro c; injection c)
  | .jobj _, .jnum _ => isFalse (by intro c; injection c)
  | .jobj _, .jstr _ => isFalse (by intro c; injection c)
  | .jobj _, .jarr _ => isFalse (by intro c; injection c)

def decEqJVList : (xs ys : List JValue) → Decidable (xs = ys)
  | [], [] => isTrue rfl
  | [], _ :: _ => isFalse (by intro c; injection c)
  | _ :: _, [] => isFalse (by intro c; injection c)
  | x :: xs, y :: ys =>
    match decEqJV x y with
    | isTrue h1 =>
      match decEqJVList xs ys with
      | isTrue h2 => isTrue (by rw [h1, h2])
      | isFalse h2 => isFalse (by intro c; injection c; contradiction)
    | isFalse h1 => isFalse (by intro c; injection c; contradiction)

def decEqJVFields : (xs ys : List (Str × JValue)) → Decidable (xs = ys)
  | [], [] => isTrue rfl
  | [], _ :: _ => isFalse (by intro c; injection c)
  | _ :: _, [] => isFalse (by intro c; injection c)
  | (k1, v1) :: xs, (k2, v2) :: ys =>
    match decEq k1 k2 with
    | isTrue hk =>
      match decEqJV v1 v2 with
      | isTrue h1 =>
        match decEqJVFields xs ys with
        | isTrue h2 => isTrue (by rw [hk, h1, h2])
        | isFalse h2 => isFalse (by intro c; injection c; simp_all)
      | isFalse h1 => isFalse (by intro c; injection c; simp_all)
    | isFalse hk => isFalse (by intro c; injection c; simp_all)

end

instance : DecidableEq JValue := decEqJV

/-- JSON insignificant whitespace (RFC 8259 / `JSON.parse`). -/
def isJsonWs (c : Char) : Bool :=
  c = ' ' || c = '\t' || c = '\n' || c = '\r'

def skipWs (s : Str) : Str := s.dropWhile isJsonWs

def isHexDigit (c : Char) : Bool :=
  c.isDigit || ('a' ≤ c && c ≤ 'f') || ('A' ≤ c && c ≤ 'F')

def hexVal (c : Char) : Nat :=
  if c.isDigit then c.toNat - '0'.toNat
  else if 'a' ≤ c && c ≤ 'f' then c.toNat - 'a'.toNat + 10
  else c.toNat - 'A'.toNat + 10

/-- Lex a JSON string body (after the opening quote); returns the decoded
characters and the remainder after the closing quote. -/
def lexStringF : Nat → Str → Option (Str × Str)
  | 0, _ => none
  | _ + 1, [] => none
  | f + 1, c :: rest =>
    if c = '"' then some ([], rest)
    else if c = '\\' then
      match rest with
      | [] => none
      | e :: rest' =>
        let dec : Option (Char × Str) :=
          if e = '"' then some ('"', rest')
          else if e = '\\' then some ('\\', rest')
          else if e = '/' then some ('/', rest')
          else if e = 'b' then some ('\x08', rest')
          else if e = 'f' then some ('\x0c', rest')
          else if e = 'n' then some ('\n', rest')
          else if e = 'r' then some ('\r', rest')
          else if e = 't' then some ('\t', rest')
          else if e = 'u' then
            match rest' with
            | h1 :: h2 :: h3 :: h4 :: rest'' =>
              if isHexDigit h1 && isHexDigit h2 && isHexDigit h3 && isHexDigit h4 then
                let n := ((hexVal h1 * 16 + hexVal h2) * 16 + hexVal h3) * 16 + hexVal h4
                some (Char.ofNat n, rest'')
              else none
            | _ => none
          else none
        match dec with
        | some (d, r) =>
          match lexStringF f r with
          | some (cs, r2) => some (d :: cs, r2)
          | none => none
        | none => none
    else if c.toNat < 0x20 then none
    else
      match lexStringF f rest with
      | some (cs, r2) => some (c :: cs, r2)
      | none => none

/-- Lex a JSON number; returns the lexeme and the remainder. -/
def lexNumber (s : Str) : Option (Str × Str) :=
  let (sign, s1) :=
    match s with
    | '-' :: r => (['-'], r)
    | _ => (([] : Str), s)
  match s1 with
  | [] => none
  | c :: _ =>
    if c.isDigit then
      let (ipart, s2) :=
        if c = '0' then (['0'], s1.tail)
        else s1.span Char.isDigit
      let (fpart, s3) :=
        match s2 with
        | '.' :: r =>
          let (ds, r') := r.span Char.isDigit
          if ds.isEmpty then (([] : Str), s2) else ('.' :: ds, r')
        | _ => (([] : Str), s2)
      match s3 with
      | e :: r =>
        if e = 'e' ∨ e = 'E' then
          let (esign, r1) :=
            match r with
            | '+' :: rr => (['+'], rr)
            | '-' :: rr => (['-'], rr)
            | _ => (([] : Str), r)
          let (eds, r2) := r1.span Char.isDigit
          if eds.isEmpty then none
          else some (sign ++ ipart ++ fpart ++ e :: esign ++ eds, r2)
        else some (sign ++ ipart ++ fpart, s3)
      | [] => some (sign ++ ipart ++ fpart, s3)
    else none

mutual

/-- Fueled JSON value parser. -/
def parseValueF : Nat → Str → Option (JValue × Str)
  | 0, _ => none
  | f + 1, s =>
    match skipWs s with
    | [] => none
    | c :: r =>
      if c = 'n' then
        match r with
        | 'u' :: 'l' :: 'l' :: r' => some (.jnull, r')
        | _ => none
      else if c = 't' then
        match r with
        | 'r' :: 'u' :: 'e' :: r' => some (.jbool true, r')
        | _ => none
      else if c = 'f' then
        match r with
        | 'a' :: 'l' :: 's' :: 'e' :: r' => some (.jbool false, r')
        | _ => none
      else if c = '"' then (lexStringF (f + 1) r).map (fun p => (.jstr p.1, p.2))
      else if c = '[' then
        match skipWs r with
        | ']' :: r' => some (.jarr [], r')
        | _ => (parseArrayF f r).map (fun p => (.jarr p.1, p.2))
      else if c = '{' then
        match skipWs r with
        | '}' :: r' => some (.jobj [], r')
        | _ => (parseObjectF f r).map (fun p => (.jobj p.1, p.2))
      else (lexNumber (c :: r)).map (fun p => (.jnum p.1, p.2))

/-- Elements of a non-empty array, expecting a first value. -/
def parseArrayF : Nat → Str → Option (List JValue × Str)
  | 0, _ => none
  | f + 1, s =>
    match parseValueF f s with
    | none => none
    | some (v, r) =>
      match skipWs r with
      | ',' :: r' => (parseArrayF f r').map (fun p => (v :: p.1, p.2))
      | ']' :: r' => some ([v], r')
      | _ => none

/-- Members of a non-empty object, expecting a first `"key": value` pair. -/
def parseObjectF : Nat → Str → Option (List (Str × JValue) × Str)
  | 0, _ => none
  | f + 1, s =>
    match skipWs s with
    | '"' :: r =>
      match lexStringF (f + 1) r with
      | none => none
      | some (key, r1) =>
        match skipWs r1 with
        | ':' :: r2 =>
          match parseValueF f r2 with
          | none => none
          | some (v, r3) =>
            match skipWs r3 with
            | ',' :: r4 => (parseObjectF f r4).map (fun p => ((key, v) :: p.1, p.2))
            | '}' :: r4 => some ([(key, v)], r4)
            | _ => none
        | _ => none
    | _ => none

end

/-- Model of `JSON.parse`: `none` is a thrown `SyntaxError`. -/
def jsonParse (s : Str) : Option JValue :=
  match parseValueF (2 * s.length + 8) s with
  | some (v, r) => if (skipWs r).isEmpty then some v else none
  | none => none

example : jsonParse "5".toList = some (.jnum ['5']) := by decide
example : jsonParse "nope".toList = none := by decide
example : jsonParse " [1, 2] ".toList
    = some (.jarr [.jnum ['1'], .jnum ['2']]) := by decide
example : jsonParse "\x7b\"a\":1\x7d".toList
    = some (.jobj [(['a'], .jnum ['1'])]) := by decide
example : jsonParse "\x7b\"a\":\x7b\"b\":1\x7d".toList = none := by decide
example : jsonParse "\"x\\n\"".toList = some (.jstr ['x', '\n']) := by decide
example : jsonParse "true".toList = some (.jbool true) := by decide
example : jsonParse "-1.5e3".toList
    = some (.jnum ['-', '1', '.', '5', 'e', '3']) := by decide
example : jsonParse "01".toList = none := by decide

/-! ### JavaScript string helpers -/

/-- `String.prototype.trim` whitespace (the ASCII part, which is all that
occurs in this development). -/
def isTrimWs (c : Char) : Bool :=
  c = ' ' || c = '\t' || c = '\n' || c = '\r' || c = '\x0b' || c = '\x0c'

def trimJS (s : Str) : Str :=
  ((s.dropWhile isTrimWs).reverse.dropWhile isTrimWs).reverse

/-- Regex `\s` (again the ASCII part). -/
def isRegexWs (c : Char) : Bool := isTrimWs c

def startsWithChar (c : Char) (s : Str) : Bool := s.head? = some c

def endsWithChar (c : Char) (s : Str) : Bool := s.getLast? = some c

/-- Index of the first character satisfying `p`, counting from `i`. -/
def firstIdxGo (p : Char → Bool) : Str → Nat → Option Nat
  | [], _ => none
  | c :: rest, i => if p c then some i else firstIdxGo p rest (i + 1)

/-- `String.prototype.lastIndexOf` for a single character (−1 becomes
`none`). -/
def lastIdxOfChar (c : Char) (s : Str) : Option Nat :=
  match firstIdxGo (· = c) s.reverse 0 with
  | some i => some (s.length - 1 - i)
  | none => none

example : lastIdxOfChar 'b' "abcb".toList = some 3 := by decide
example : lastIdxOfChar 'z' "abcb".toList = none := by decide

/-- Scanner for `fixed.replace(/,(\s*[}\]])/g, '$1')`.  The first argument
is `none` in normal scanning; `some ws` means a comma has been read and
`ws` (reversed) is the whitespace seen since.  A closing `}`/`]` completes
the match (the comma is dropped); any other character abandons it, and a
new comma starts a fresh match attempt, exactly as the global regex
resumes. -/
def stcGo : Option Str → Str → Str
  | none, [] => []
  | none, c :: rest =>
    if c = ',' then stcGo (some []) rest
    else c :: stcGo none rest
  | some ws, [] => ',' :: ws.reverse
  | some ws, c :: rest =>
    if c = '}' ∨ c = ']' then ws.reverse ++ c :: stcGo none rest
    else if isRegexWs c then stcGo (some (c :: ws)) rest
    else if c = ',' then ',' :: ws.reverse ++ stcGo (some []) rest
    else ',' :: ws.reverse ++ c :: stcGo none rest

/-- `fixed.replace(/,(\s*[}\]])/g, '$1')`: drop every comma followed by
optional whitespace and a closing `}` or `]`. -/
def stripTrailingCommas (s : Str) : Str := stcGo none s

example : stripTrailingCommas "[1,\n]".toList = "[1\n]".toList := by decide
example : stripTrailingCommas "[1, 2]".toList = "[1, 2]".toList := by decide

/-! ### `fixCommonJsonIssues` (source lines 23-71) -/

/-- `fixed.replace(/(?<!\\)"/g, '\"')`: the replacement string `'\"'`
denotes the one-character string `"`, so each unescaped quote is replaced
by itself and the substitution is the identity. -/
def fixUnescapedQuotes (s : Str) : Str := s

/-- The `fixCommonJsonIssues` closure.  The `jsonCache` map is pure
memoization keyed by the input and is omitted; `attemptFix` is the
destructured option captured by the closure. -/
def fixCommonJsonIssues (attemptFix : Bool) (jsonStr : Str) : Str :=
  let fixed := jsonStr
  let fixed :=
    if fixed.contains '\n' then
      if ¬ endsWithChar '}' (trimJS fixed) ∧ ¬ endsWithChar ']' (trimJS fixed) then
        let fixed := if fixed.count '{' > fixed.count '}' then fixed ++ ['}'] else fixed
        let fixed := if fixed.count '[' > fixed.count ']' then fixed ++ [']'] else fixed
        fixed
      else fixed
    else
      let trimmed := trimJS fixed
      let fixed :=
        if startsWithChar '{' trimmed ∧ ¬ endsWithChar '}' trimmed ∧ attemptFix then
          trimmed ++ ['}']
        else fixed
      let fixed :=
        if startsWithChar '[' trimmed ∧ ¬ endsWithChar ']' trimmed ∧ attemptFix then
          trimmed ++ [']']
        else fixed
      fixed
  fixUnescapedQuotes (stripTrailingCommas fixed)

/-! ### `findJsonBoundaries` (source lines 128-167) -/

/-- The scanning loop of `findJsonBoundaries`: remaining characters, current
index, `start` (−1 modeled as `none`), depth, string and escape state. -/
def fjbGo (len : Nat) : Str → Nat → Option Nat → Int → Bool → Bool → Option Nat × Nat
  | [], _, start, _, _, _ => (start, len)
  | c :: rest, i, start, depth, inString, escapeNext =>
    if escapeNext then fjbGo len rest (i + 1) start depth inString false
    else if c = '"' ∧ ¬ inString then
      fjbGo len rest (i + 1) (if start.isNone then some i else start) depth true false
    else if c = '"' ∧ inString then fjbGo len rest (i + 1) start depth false false
    else if c = '\\' then fjbGo len rest (i + 1) start depth inString true
    else if ¬ inString then
      if c = '{' ∨ c = '[' then
        fjbGo len rest (i + 1)
          (if depth = 0 then (if start.isNone then some i else start) else start)
          (depth + 1) inString false
      else if c = '}' ∨ c = ']' then
        if depth - 1 = 0 then (start, i + 1)
        else fjbGo len rest (i + 1) start (depth - 1) inString false
      else fjbGo len rest (i + 1) start depth inString false
    else fjbGo len rest (i + 1) start depth inString false

/-- `findJsonBoundaries`: `.1 = none` models `start = -1`; on the
fall-through return the source's `end` is still `-1` and is replaced by
`text.length`. -/
def findJsonBoundaries (s : Str) : Option Nat × Nat :=
  fjbGo s.length s 0 none 0 false false

example : findJsonBoundaries "ab \x7b\"x\":1\x7d tail".toList = (some 3, 10) := by decide
example : findJsonBoundaries "no json here".toList = (none, 12) := by decide
example : findJsonBoundaries "\x7b\"a\": [1".toList = (some 0, 8) := by decide

/-! ### `extractValidJson` (source lines 170-232) -/

/-- Segment-splitter loop of `extractValidJson`.  `cur` holds the source's
`current` in reverse (an efficient accumulator) and `segs` the emitted
segments in reverse; both are put back in order at the end, where the
source's final push of a non-blank `current` and the `.filter` happen. -/
def evjGo : Str → Str → Int → Int → Bool → Bool → List Str → List Str
  | [], cur, _, _, _, _, segs =>
    ((if (trimJS cur.reverse).isEmpty then segs else cur.reverse :: segs).reverse).filter
      (fun s => 0 < (trimJS s).length)
  | c :: rest, cur, brc, brk, inString, escapeNext, segs =>
    if escapeNext then evjGo rest (c :: cur) brc brk inString false segs
    else if c = '\\' then evjGo rest (c :: cur) brc brk inString true segs
    else if c = '"' ∧ ¬ inString then evjGo rest (c :: cur) brc brk true false segs
    else if c = '"' ∧ inString then evjGo rest (c :: cur) brc brk false false segs
    else if ¬ inString then
      if c = '{' ∨ c = '[' then
        let p : List Str × Str :=
          if cur.isEmpty ∨ cur.head? = some ',' then (cur.reverse :: segs, [])
          else (segs, cur)
        evjGo rest (c :: p.2) (brc + 1) (brk + if c = '[' then 1 else 0) inString false p.1
      else if c = '}' ∨ c = ']' then
        let cur2 := c :: cur
        let brc2 := brc - 1
        let brk2 := brk - if c = ']' then 1 else 0
        if brc2 = 0 ∧ brk2 = 0 then evjGo rest [] brc2 brk2 inString false (cur2.reverse :: segs)
        else evjGo rest cur2 brc2 brk2 inString false segs
      else evjGo rest (c :: cur) brc brk inString false segs
    else evjGo rest (c :: cur) brc brk inString false segs

/-- `extractValidJson`: boundary scan first, falling back to the segment
splitter.  (The source's `end !== -1` is always true, see
`findJsonBoundaries`.) -/
def extractValidJson (text : Str) : List Str :=
  if (trimJS text).length < 2 then []
  else
    match findJsonBoundaries text with
    | (some st, en) =>
      if st < en then [(text.take en).drop st]
      else evjGo text [] 0 0 false false []
    | (none, _) => evjGo text [] 0 0 false false []

example : extractValidJson "say \x7b\"a\":1\x7d now".toList = ["\x7b\"a\":1\x7d".toList] := by decide
example : extractValidJson "12345".toList = ["12345".toList] := by decide
example : extractValidJson "5".toList = [] := by decide

/-! ### `tryCompleteJson` (source lines 319-360) -/

structure Completed where
  json : Str
  valid : Bool
deriving DecidableEq, Repr

/-- JS `Math.max` over two `lastIndexOf` results (−1 modeled as `none`). -/
def maxIdx : Option Nat → Option Nat → Option Nat
  | none, b => b
  | some a, none => some a
  | some a, some b => some (max a b)

/-- `tryCompleteJson`.  The unused locals `lastColon`, `lastQuote`,
`lastComma` are omitted (source line 325, the `lastQuote` computation, also
contains stray backslashes that make it ill-formed; it is dead code either
way).  Nothing in the outer `try` can throw, and the inner
`JSON.parse(balanced)` check is the `valid` flag. -/
def tryCompleteJson (partialJson : Str) : Completed :=
  let attempt := trimJS partialJson
  match maxIdx (lastIdxOfChar '{' attempt) (lastIdxOfChar '[' attempt) with
  | none => ⟨attempt, false⟩
  | some lastBrace =>
    let balanced := attempt.take lastBrace
    let balanced :=
      if attempt.contains '{' ∧ ¬ attempt.contains '[' then balanced ++ ['}', '}']
      else if attempt.contains '[' ∧ ¬ attempt.contains '{' then balanced ++ [']', '}']
      else balanced ++ ['}']
    if (jsonParse balanced).isSome then ⟨balanced, true⟩ else ⟨balanced, false⟩

example : tryCompleteJson "\x7b[xxx".toList = ⟨"\x7b\x7d".toList, true⟩ := by decide
example : tryCompleteJson "12345".toList = ⟨"12345".toList, false⟩ := by decide

/-! ### `extractJson` (source lines 74-125)

The three regular expressions are implemented as deterministic scanners.
`match.index`, the `lastIndex` cursor of each `/g` regex (advanced past a
match on success, reset to `0` on failure) and the captured content follow
the JavaScript semantics. -/

/-- Does `pat` occur at the head of `s`? -/
def leadsWith : Str → Str → Bool
  | [], _ => true
  | _ :: _, [] => false
  | p :: ps, c :: cs => p = c && leadsWith ps cs

/-- Relative index of the first occurrence of `pat` in `s`. -/
def findSubGo (pat : Str) : Str → Nat → Option Nat
  | [], i => if pat.isEmpty then some i else none
  | c :: rest, i =>
    if leadsWith pat (c :: rest) then some i else findSubGo pat rest (i + 1)

/-- Absolute index of the first occurrence of `pat` in `s` at or after
`pos`. -/
def findSubFrom (pat s : Str) (pos : Nat) : Option Nat :=
  (findSubGo pat (s.drop pos) 0).map (· + pos)

/-- One regex match: start offset, the `lastIndex` after the match, and the
candidate content it contributes. -/
structure RMatch where
  mIndex : Nat
  mEnd : Nat
  content : Str
deriving DecidableEq, Repr

def backticks : Str := ['\x60', '\x60', '\x60']

def fenceJsonL : Str := backticks ++ ['j', 's', 'o', 'n']

def fenceJsonU : Str := backticks ++ ['J', 'S', 'O', 'N']

/-- Minimum of two optional indices (`none` = not found). -/
def minIdx : Option Nat → Option Nat → Option Nat
  | none, b => b
  | some a, none => some a
  | some a, some b => some (min a b)

/-- Search of `/```(?:json|JSON)\s*\n?([\s\S]*?)\n?```/g` from `pos`:
the earliest tagged fence opens the match, greedy `\s*` takes the maximal
whitespace run after the tag (the following `\n?` is then empty), the lazy
body ends at the next "```", giving back one directly preceding newline to
the trailing `\n?`.  When no closing "```" exists the search fails
altogether: a later tagged fence would need a closer of its own. -/
def jsonBlockFind (s : Str) (pos : Nat) : Option RMatch :=
  match minIdx (findSubFrom fenceJsonL s pos) (findSubFrom fenceJsonU s pos) with
  | none => none
  | some i =>
    let p0 := i + 7
    let p := p0 + ((s.drop p0).takeWhile isRegexWs).length
    match findSubFrom backticks s p with
    | none => none
    | some m =>
      let contentEnd := if p < m ∧ (s.drop (m - 1)).head? = some '\n' then m - 1 else m
      some ⟨i, m + 3, (s.take contentEnd).drop p⟩

/-- Search of `/```([\s\S]*?)```/g` from `pos`: the earliest fence pair,
lazy body. -/
def codeBlockFind (s : Str) (pos : Nat) : Option RMatch :=
  match findSubFrom backticks s pos with
  | none => none
  | some i =>
    match findSubFrom backticks s (i + 3) with
    | none => none
    | some j => some ⟨i, j + 3, (s.take j).drop (i + 3)⟩

/-- Scanner for `/{[^{}]}/g` relative to the list head: index of the first
three-character window `{c}` with `c` not a brace, and that `c`. -/
def braceScanGo : Str → Nat → Option (Nat × Char)
  | [], _ => none
  | '{' :: rest, i =>
    (match rest with
     | c :: '}' :: _ =>
       if c ≠ '{' ∧ c ≠ '}' then some (i, c) else braceScanGo rest (i + 1)
     | _ => braceScanGo rest (i + 1))
  | _ :: rest, i => braceScanGo rest (i + 1)

/-- Scanner for `/\[[^\[\]]\]/g`, symmetric to `braceScanGo`. -/
def bracketScanGo : Str → Nat → Option (Nat × Char)
  | [], _ => none
  | '[' :: rest, i =>
    (match rest with
     | c :: ']' :: _ =>
       if c ≠ '[' ∧ c ≠ ']' then some (i, c) else bracketScanGo rest (i + 1)
     | _ => bracketScanGo rest (i + 1))
  | _ :: rest, i => bracketScanGo rest (i + 1)

def braceScanFrom (s : Str) (pos : Nat) : Option (Nat × Char) :=
  (braceScanGo (s.drop pos) 0).map (fun p => (p.1 + pos, p.2))

def bracketScanFrom (s : Str) (pos : Nat) : Option (Nat × Char) :=
  (bracketScanGo (s.drop pos) 0).map (fun p => (p.1 + pos, p.2))

/-- The source tag of a candidate (`'block'`, `'code'`, `'inline'`,
`'array'`). -/
inductive Strategy where
  | sBlock
  | sCode
  | sInline
  | sArray
deriving DecidableEq, Repr

/-- An entry of the `results` array built by `extractJson`. -/
structure Cand where
  ctype : Strategy
  content : Str
  position : Nat
deriving DecidableEq, Repr

/-- Loop 1 of `extractJson` (tagged fences).  `remaining` is
`maxBlocks - results.length`, so the `results.length < maxBlocks` test is
`remaining > 0`; each continuing iteration pushes exactly one result.
Returns the results and the final `lastIndex` of `jsonBlockPattern`
(reset to 0 by a failing `exec`, left after the already-consumed match when
the count check stops the loop). -/
def jsonBlockLoop (s : Str) : Nat → Nat → List Cand → List Cand × Nat
  | remaining, li, acc =>
    match jsonBlockFind s li with
    | none => (acc, 0)
    | some m =>
      match remaining with
      | 0 => (acc, m.mEnd)
      | r + 1 => jsonBlockLoop s r m.mEnd (acc ++ [⟨.sBlock, trimJS m.content, m.mIndex⟩])

/-- Loop 2 of `extractJson` (untagged fences).  `cli` and `jli` are the
`lastIndex` states of `codeBlockPattern` and of the shared
`jsonBlockPattern` consulted by the `.test` guard (a `/g` regex: a
successful `test` advances its `lastIndex` past the found match and the
push is skipped; a failing `test` resets it to 0 and the candidate is
pushed).  `cli` grows by at least six per iteration, so fuel
`s.length + 1` is never exhausted. -/
def codeBlockLoop (s : Str) : Nat → Nat → Nat → Nat → List Cand → List Cand
  | 0, _, _, _, acc => acc
  | f + 1, remaining, cli, jli, acc =>
    match codeBlockFind s cli with
    | none => acc
    | some m =>
      match remaining with
      | 0 => acc
      | r + 1 =>
        match jsonBlockFind s jli with
        | some jm => codeBlockLoop s f (r + 1) m.mEnd jm.mEnd acc
        | none =>
          codeBlockLoop s f r m.mEnd 0 (acc ++ [⟨.sCode, trimJS m.content, m.mIndex⟩])

/-- Loop 3 of `extractJson` (inline `{c}` windows). -/
def braceLoop (s : Str) : Nat → Nat → List Cand → List Cand
  | remaining, li, acc =>
    match braceScanFrom s li with
    | none => acc
    | some (i, c) =>
      match remaining with
      | 0 => acc
      | r + 1 => braceLoop s r (i + 3) (acc ++ [⟨.sInline, ['{', c, '}'], i⟩])

/-- Loop 4 of `extractJson` (inline `[c]` windows). -/
def bracketLoop (s : Str) : Nat → Nat → List Cand → List Cand
  | remaining, li, acc =>
    match bracketScanFrom s li with
    | none => acc
    | some (i, c) =>
      match remaining with
      | 0 => acc
      | r + 1 => bracketLoop s r (i + 3) (acc ++ [⟨.sArray, ['[', c, ']'], i⟩])

/-- Stable insertion into a position-sorted list (equal positions keep
insertion order, as `Array.prototype.sort` is stable). -/
def insertByPos (x : Cand) : List Cand → List Cand
  | [] => [x]
  | y :: ys => if x.position < y.position then x :: y :: ys else y :: insertByPos x ys

/-- `results.sort((a, b) => a.position - b.position)` (stable). -/
def sortByPos : List Cand → List Cand
  | [] => []
  | x :: xs => insertByPos x (sortByPos xs)

/-- `extractJson` with its `results` records (before the final
`.map(r => r.content)`). -/
def extractJsonRecs (maxBlocks : Nat) (text : Str) : List Cand :=
  let p1 := jsonBlockLoop text maxBlocks 0 []
  let r2 := codeBlockLoop text (text.length + 1) (maxBlocks - p1.1.length) 0 p1.2 p1.1
  let r3 := braceLoop text (maxBlocks - r2.length) 0 r2
  let r4 := bracketLoop text (maxBlocks - r3.length) 0 r3
  sortByPos r4

/-- `extractJson` (source lines 74-125); `maxBlocks` is the destructured
option. -/
def extractJson (maxBlocks : Nat) (text : Str) : List Str :=
  (extractJsonRecs maxBlocks text).map (·.content)

example : extractJson 5 "no fences at all".toList = [] := by decide
example : extractJson 5 "x ```json\n[1]\n``` y".toList
    = [['[', '1', ']'], ['[', '1', ']']] := by decide
example : extractJson 5 "a \x7bk\x7d b [2] c".toList
    = [['{', 'k', '}'], ['[', '2', ']']] := by decide
example : extractJson 5 "pre ``` [3] ``` post".toList
    = [['[', '3', ']'], ['[', '3', ']']] := by decide

/-! ### `parseLLMJson` (entry point, source lines 1-420) -/

/-- The options record after destructuring with defaults (source lines
2-7). -/
structure Options where
  attemptFix : Bool
  maxBlocks : Nat
  preferFirst : Bool
  allowPartial : Bool
deriving DecidableEq, Repr

def defaultOptions : Options := ⟨true, 5, true, false⟩

/-- A JavaScript value passed as the `options` argument: `undefined` (an
omitted argument, which takes the `= {}` parameter default), `null`, an
options record, or any other non-null value, whose property reads all give
`undefined` so that every option gets its default. -/
inductive OptVal where
  | vundefined
  | vnull
  | vrecord (o : Options)
  | vother
deriving DecidableEq, Repr

/-- A JavaScript value passed as the `response` argument. -/
inductive TextVal where
  | tstring (s : Str)
  | tnonstring
deriving DecidableEq, Repr

/-- The result object: `data` and `rawJson` are `none` where the source
stores `null` or omits the field; `error` is `none` when omitted. -/
structure ParseResult where
  success : Bool
  data : Option JValue
  rawJson : Option Str
  error : Option Str
deriving DecidableEq, Repr

/-- Outcome of a call: a returned result, or an exception escaping the
entry point. -/
inductive Outcome where
  | ok (r : ParseResult)
  | thrown (msg : Str)
deriving DecidableEq, Repr

def invalidInputMsg : Str := "Invalid input: response must be a non-empty string".toList

def emptyJsonMsg : Str := "Empty JSON string".toList

def noValidJsonMsg : Str := "No valid JSON found in the response".toList

def failAfterMsg (attempts : Nat) : Str :=
  "Failed to parse JSON after ".toList ++ (Nat.repr attempts).toList ++ " attempts".toList

/-- The `TypeError` message thrown by destructuring `null` options. -/
def destructureMsg : Str := "Cannot destructure property of null".toList

/-- `Object.keys(v).length`: `none` models the `TypeError` thrown on
`null`; strings and arrays enumerate their indices, objects their
properties; numbers and booleans have no keys. -/
def objKeysLen : JValue → Option Nat
  | .jnull => none
  | .jbool _ => some 0
  | .jnum _ => some 0
  | .jstr cs => some cs.length
  | .jarr es => some es.length
  | .jobj fs => some fs.length

/-- Evaluation of `completed.valid || Object.keys(parsed).length > 0`
(short-circuiting); `gthrow` is the `TypeError` from `Object.keys(null)`,
caught by the surrounding `catch`. -/
inductive GuardRes where
  | gtrue
  | gfalse
  | gthrow
deriving DecidableEq, Repr

def guardEval (valid : Bool) (parsed : JValue) : GuardRes :=
  if valid then .gtrue
  else
    match objKeysLen parsed with
    | none => .gthrow
    | some k => if k > 0 then .gtrue else .gfalse

/-- Result of the truncate-and-reclose `while` loop: an early success
return, or a normal exit carrying the final `attempts` value. -/
inductive LoopRes where
  | found (r : ParseResult)
  | exhausted (attempts : Nat)
deriving DecidableEq, Repr

/-- The `while (tryIndex > 100 && attempts < 3)` loop (source lines
290-312), with explicit fuel.  When `JSON.parse(completed.json)` succeeds
but the guard is false, no `return` and no `catch` runs, so the loop
repeats with `tryIndex` and `attempts` unchanged; only the `catch` branch
updates them (`Math.floor(tryIndex * 0.9)` is `tryIndex * 9 / 10`). -/
def truncLoopF (current : Str) : Nat → Nat → Nat → Option LoopRes
  | 0, _, _ => none
  | f + 1, tryIndex, attempts =>
    if tryIndex > 100 ∧ attempts < 3 then
      let truncated := current.take tryIndex
      let completed := tryCompleteJson truncated
      match jsonParse completed.json with
      | some parsed =>
        match guardEval completed.valid parsed with
        | .gtrue => some (.found ⟨true, some parsed, some completed.json, none⟩)
        | .gfalse => truncLoopF current f tryIndex attempts
        | .gthrow => truncLoopF current f (tryIndex * 9 / 10) (attempts + 1)
      | none => truncLoopF current f (tryIndex * 9 / 10) (attempts + 1)
    else some (.exhausted attempts)

/-- Source lines 289-315: the `allowPartial` branch
(`Math.floor(current.length * 0.8)` is `length * 4 / 5`) and the final
failure result of `tryParseJson`, which reports the `attempts` count. -/
def partialOrFail (fuel : Nat) (allowPartial : Bool) (current : Str) (attempts : Nat) :
    Option ParseResult :=
  if allowPartial ∧ current.length > 1000 then
    match truncLoopF current fuel (current.length * 4 / 5) attempts with
    | some (.found r) => some r
    | some (.exhausted att) => some ⟨false, none, none, some (failAfterMsg att)⟩
    | none => none
  else some ⟨false, none, none, some (failAfterMsg attempts)⟩

/-- `tryParseJson` (source lines 235-316): direct parse of the trimmed
candidate, then under `attemptFix` a parse after `fixCommonJsonIssues`,
then a parse of the first `extractValidJson` segment (which, parsed or
not, becomes `current`), then the partial-recovery step.  `unwrapResponse`
is the identity, so `data` is `parsed`; `attempts` is 1 after the first
failed parse. -/
def tryParseJson (fuel : Nat) (attemptFix allowPartial : Bool) (jsonStr : Str) :
    Option ParseResult :=
  if (trimJS jsonStr).length = 0 then
    some ⟨false, none, none, some emptyJsonMsg⟩
  else
    let current := trimJS jsonStr
    match jsonParse current with
    | some parsed => some ⟨true, some parsed, some current, none⟩
    | none =>
      let attempts := 1
      if attemptFix then
        let current := fixCommonJsonIssues attemptFix current
        match jsonParse current with
        | some parsed => some ⟨true, some parsed, some current, none⟩
        | none =>
          match (extractValidJson current).head? with
          | some e =>
            (match jsonParse e with
             | some parsed => some ⟨true, some parsed, some e, none⟩
             | none => partialOrFail fuel allowPartial e attempts)
          | none => partialOrFail fuel allowPartial current attempts
      else some ⟨false, none, none, some (failAfterMsg attempts)⟩

/-- `[...new Set(candidates)]`: deduplication keeping first occurrences,
via a seen-set accumulator. -/
def dedupSeen : List Str → List Str → List Str
  | _, [] => []
  | seen, s :: rest =>
    if seen.contains s then dedupSeen seen rest
    else s :: dedupSeen (s :: seen) rest

def dedupFirst (l : List Str) : List Str := dedupSeen [] l

/-- A candidate loop of `parseLLMJson` (source lines 376-385 and 391-400):
the first candidate whose `tryParseJson` result has `success: true` yields
the returned `{success: true, data, rawJson}` object; `some none` means
every candidate failed; `none` means fuel ran out inside `tryParseJson`. -/
def firstSuccess (fuel : Nat) (attemptFix allowPartial : Bool) :
    List Str → Option (Option ParseResult)
  | [] => some none
  | c :: rest =>
    match tryParseJson fuel attemptFix allowPartial c with
    | none => none
    | some r =>
      if r.success then some (some ⟨true, r.data, r.rawJson, none⟩)
      else firstSuccess fuel attemptFix allowPartial rest

/-- The body of `parseLLMJson` after the option destructuring (source
lines 9-417): input validation, candidate extraction with the
`extractValidJson` fallback, `Set`-deduplication, the candidate loop, the
fix-the-whole-response retry, and the final failure.  `attemptFix`,
`maxBlocks` and `allowPartial` are the destructured options
(`preferFirst` is destructured too but never consulted). -/
def parseLLMJsonCore (fuel : Nat) (attemptFix : Bool) (maxBlocks : Nat)
    (allowPartial : Bool) (response : TextVal) : Option Outcome :=
  match response with
  | .tnonstring => some (.ok ⟨false, none, none, some invalidInputMsg⟩)
  | .tstring s =>
    if s.isEmpty then some (.ok ⟨false, none, none, some invalidInputMsg⟩)
    else
      let candidates := extractJson maxBlocks s
      let candidates := if candidates.isEmpty then candidates ++ extractValidJson s else candidates
      let uniqueCandidates := dedupFirst candidates
      match firstSuccess fuel attemptFix allowPartial uniqueCandidates with
      | none => none
      | some (some r) => some (.ok r)
      | some none =>
        if attemptFix then
          let fixedResponse := fixCommonJsonIssues attemptFix s
          let fixedCandidates := extractJson maxBlocks fixedResponse
          match firstSuccess fuel attemptFix allowPartial fixedCandidates with
          | none => none
          | some (some r) => some (.ok r)
          | some none => some (.ok ⟨false, none, none, some noValidJsonMsg⟩)
        else some (.ok ⟨false, none, none, some noValidJsonMsg⟩)

/-- `parseLLMJson` (source lines 1-417).  Destructuring the options throws
a `TypeError` when the argument is `null` (this happens before the
`try` block, so it escapes the entry point); `undefined` takes the `= {}`
parameter default and non-record values give every option its default.
The outer `try`/`catch` (source lines 363/402) is otherwise dead: no
modelled operation inside it throws. -/
def parseLLMJson (fuel : Nat) (response : TextVal) (options : OptVal) : Option Outcome :=
  match options with
  | .vnull => some (.thrown destructureMsg)
  | .vundefined =>
    parseLLMJsonCore fuel defaultOptions.attemptFix defaultOptions.maxBlocks
      defaultOptions.allowPartial response
  | .vrecord o => parseLLMJsonCore fuel o.attemptFix o.maxBlocks o.allowPartial response
  | .vother =>
    parseLLMJsonCore fuel defaultOptions.attemptFix defaultOptions.maxBlocks
      defaultOptions.allowPartial response

example : parseLLMJson 4 (.tstring []) (.vrecord defaultOptions)
    = some (.ok ⟨false, none, none, some invalidInputMsg⟩) := by decide
example : parseLLMJson 4 (.tstring "\x7b\"a\":1\x7d".toList) (.vrecord defaultOptions)
    = some (.ok ⟨true, some (.jobj [(['a'], .jnum ['1'])]),
        some "\x7b\"a\":1\x7d".toList, none⟩) := by decide
example : parseLLMJson 4 (.tstring "\x7b\"a\":1,\x7d".toList) (.vrecord defaultOptions)
    = some (.ok ⟨true, some (.jobj [(['a'], .jnum ['1'])]),
        some "\x7b\"a\":1\x7d".toList, none⟩) := by decide
example : parseLLMJson 4 (.tstring "not json at all".toList) (.vrecord defaultOptions)
    = some (.ok ⟨false, none, none, some noValidJsonMsg⟩) := by decide
example : parseLLMJson 4 (.tstring "Sure! \x7b\"x\":5\x7d ok".toList) (.vrecord defaultOptions)
    = some (.ok ⟨true, some (.jobj [(['x'], .jnum ['5'])]),
        some "\x7b\"x\":5\x7d".toList, none⟩) := by decide

/-! ### Specification-side definitions used to state the claims -/

/-- State of the string/escape-aware depth scan described in spec §4.2:
bracket depth, in-string flag, next-character-escaped flag. -/
structure ScanSt where
  depth : Int
  inString : Bool
  escapeNext : Bool
deriving DecidableEq, Repr

def initScanSt : ScanSt := ⟨0, false, false⟩

/-- The per-character state transition of that scan (the same transitions
`findJsonBoundaries` performs, on the bare state). -/
def scanStep (st : ScanSt) (c : Char) : ScanSt :=
  if st.escapeNext then { st with escapeNext := false }
  else if c = '"' ∧ ¬ st.inString then { st with inString := true }
  else if c = '"' ∧ st.inString then { st with inString := false }
  else if c = '\\' then { st with escapeNext := true }
  else if ¬ st.inString then
    if c = '{' ∨ c = '[' then { st with depth := st.depth + 1 }
    else if c = '}' ∨ c = ']' then { st with depth := st.depth - 1 }
    else st
  else st

/-- Index of the first character that fires `trig` in its pre-state. -/
def firstTrigger (trig : ScanSt → Char → Bool) : Str → ScanSt → Nat → Option Nat
  | [], _, _ => none
  | c :: rest, st, i =>
    if trig st c then some i else firstTrigger trig rest (scanStep st c) (i + 1)

/-- How the scanner keeps an already-recorded `start`: a later trigger
never overwrites it. -/
def mergeStart (a b : Option Nat) : Option Nat :=
  match a with
  | some x => some x
  | none => b

/-- Modelled from claim C7's words: a structural opening character `{` or
`[` encountered at depth 0 outside a string and not escaped. -/
def structOpenTrig (st : ScanSt) (c : Char) : Bool :=
  !st.escapeNext && !st.inString && (c == '{' || c == '[') && st.depth == 0

/-- What actually sets `start` in the code: additionally a string-opening
quote (source line 145). -/
def startTrig (st : ScanSt) (c : Char) : Bool :=
  !st.escapeNext &&
    ((c == '"' && !st.inString) ||
      (!st.inString && (c == '{' || c == '[') && st.depth == 0))

/-- What returns `end`: a closer bringing the depth from 1 to 0 outside a
string (source lines 156-161). -/
def endTrig (st : ScanSt) (c : Char) : Bool :=
  !st.escapeNext && !st.inString && (c == '}' || c == ']') && st.depth == 1

/-- Modelled from claim C6's words: the stack of unclosed opener kinds of a
string/escape-aware scan, most recently opened first. -/
def lifoOpenGo : Str → List Char → Bool → Bool → List Char
  | [], stk, _, _ => stk
  | c :: rest, stk, inString, escapeNext =>
    if escapeNext then lifoOpenGo rest stk inString false
    else if c = '"' ∧ ¬ inString then lifoOpenGo rest stk true false
    else if c = '"' ∧ inString then lifoOpenGo rest stk false false
    else if c = '\\' then lifoOpenGo rest stk inString true
    else if ¬ inString then
      if c = '{' ∨ c = '[' then lifoOpenGo rest (c :: stk) inString false
      else if c = '}' ∨ c = ']' then lifoOpenGo rest stk.tail inString false
      else lifoOpenGo rest stk inString false
    else lifoOpenGo rest stk inString false

/-- Modelled from claim C6's words: the closers for every unclosed opener
in LIFO order (the most recently opened closes first; objects close with
`}`, arrays with `]`). -/
def lifoClosers (s : Str) : Str :=
  (lifoOpenGo s [] false false).map (fun c => if c = '{' then '}' else ']')

/-- Concrete inputs used by the counterexamples. -/
def c6input : Str := "\x7b\"a\":[1,\n".toList

def c7input : Str := "\"q\" \x7b\"a\":1\x7d".toList

def c8input : Str := "```json\n\x7b\"a\":1\x7d\n```\n```\n\x7b\"b\":2\x7d\n```".toList

def c1input : Str := "[[1],[2]]".toList

def c9input : Str := "```\n5\n```".toList

/-- The result returned for the input `{"a":1}` (used as a witness). -/
def c2result : ParseResult :=
  ⟨true, some (.jobj [(['a'], .jnum ['1'])]), some "\x7b\"a\":1\x7d".toList, none⟩

/-- 1001 copies of `1` followed by `x`: a 1002-character candidate whose
truncations parse as plain numbers. -/
def c3input : Str := List.replicate 1001 '1' ++ ['x']

/-- The options record with partial recovery enabled. -/
def partialOptions : Options := { defaultOptions with allowPartial := true }

/-- `{[` followed by 1200 `x`: a 1202-character candidate driven into the
truncate-and-reclose path. -/
def c5input : Str := '{' :: '[' :: List.replicate 1200 'x'

/-- `c5input` after `fixCommonJsonIssues` (one `}` appended). -/
def c5current : Str := c5input ++ ['}']

/-! ### Claim theorems -/

/-- C1: the claim states that for every non-empty valid JSON string `s`,
`parseLLMJson(s)` (default options) succeeds with `data` deep-equal to the
standard decode of `s`.  Counter-evaluation: `[[1],[2]]` is valid JSON, yet
the inline-array regex extracts the fragment `[1]` first and the call
returns `success: true` with `data = [1]`, not the decode `[[1],[2]]` —
silently wrong data. -/
theorem parseLLMJson_wrong_data_on_valid_json :
    parseLLMJson 4 (.tstring c1input) (.vrecord defaultOptions)
      = some (.ok ⟨true, some (.jarr [.jnum ['1']]), some ['[', '1', ']'], none⟩) ∧
    jsonParse c1input
      = some (.jarr [.jarr [.jnum ['1']], .jarr [.jnum ['2']]]) ∧
    (some (.jarr [.jnum ['1']]) : Option JValue)
      ≠ some (.jarr [.jarr [.jnum ['1']], .jarr [.jnum ['2']]]) := by
  exact ⟨by decide, by decide, by decide⟩

/-- C4 (counterexample): the claim states that `parseLLMJson` never throws
past its boundary for any options value, including `null`.  But the options
destructuring (source lines 2-7) runs before the `try` block, and
destructuring `null` throws a `TypeError` that escapes the entry point. -/
theorem parseLLMJson_throws_on_null_options :
    parseLLMJson 1 (.tstring ['x']) .vnull = some (.thrown destructureMsg) := by
  decide

/-- C6 (counterexample): the claim states that repair appends closers in
LIFO order of the open-stack (most recently opened closes first).  For
`"{"a":[1,\n"` the stack is `{` then `[`, so LIFO closing appends `]` then
`}`; the code instead always appends `}` (if braces are unbalanced) and
then `]` (if brackets are), producing the reverse order `}]`. -/
theorem fixCommonJsonIssues_not_lifo :
    fixCommonJsonIssues true c6input = "\x7b\"a\":[1\n\x7d]".toList ∧
    lifoClosers c6input = [']', '}'] ∧
    fixCommonJsonIssues true c6input ≠ stripTrailingCommas (c6input ++ lifoClosers c6input) := by
  exact ⟨by decide, by decide, by decide⟩

/-- C7 (counterexample): the claim states that `start` is the offset of the
first structural opening character (`{` or `[`) at depth 0.  On
`'"q" {"a":1}'` the first such opener is at offset 4, but the scanner also
records string-opening quotes, so it returns `start = 0`. -/
theorem findJsonBoundaries_start_not_struct_opener :
    (findJsonBoundaries c7input).1 = some 0 ∧
    firstTrigger structOpenTrig c7input initScanSt 0 = some 4 ∧
    (some 0 : Option Nat) ≠ some 4 := by
  exact ⟨by decide, by decide, by decide⟩

/-- Index shifting for `firstTrigger`. -/
theorem firstTrigger_shift (trig : ScanSt → Char → Bool) :
    ∀ (cs : Str) (st : ScanSt) (i : Nat),
      firstTrigger trig cs st i = (firstTrigger trig cs st 0).map (· + i) := by
  intro cs
  induction cs with
  | nil => intro st i; rfl
  | cons c rest ih =>
    intro st i
    simp only [firstTrigger]
    by_cases ht : trig st c = true
    · rw [if_pos ht, if_pos ht]
      simp
    · rw [if_neg ht, if_neg ht]
      rw [ih (scanStep st c) (i + 1), ih (scanStep st c) 1]
      cases firstTrigger trig rest (scanStep st c) 0 with
      | none => rfl
      | some k => simp; omega

/-- The boundary-scanner loop computes the first `startTrig` index (kept
`start` aside) and the first `endTrig` index.  The side condition —
`start` unset only while the depth is non-positive — holds initially and
is preserved by every transition. -/
theorem fjbGo_triggers (len : Nat) :
    ∀ (cs : Str) (i : Nat) (start : Option Nat) (d : Int) (inS esc : Bool),
      (start = none → d ≤ 0) →
      fjbGo len cs i start d inS esc =
        (mergeStart start ((firstTrigger startTrig cs ⟨d, inS, esc⟩ 0).map (· + i)),
         match firstTrigger endTrig cs ⟨d, inS, esc⟩ 0 with
         | some e => i + e + 1
         | none => len) := by
  intro cs
  induction cs with
  | nil =>
    intro i start d inS esc hinv
    cases start <;> simp [fjbGo, firstTrigger, mergeStart]
  | cons c rest ih =>
    intro i start d inS esc hinv
    have step :
        ∀ (d' : Int) (inS' esc' : Bool),
          startTrig ⟨d, inS, esc⟩ c = false →
          endTrig ⟨d, inS, esc⟩ c = false →
          scanStep ⟨d, inS, esc⟩ c = ⟨d', inS', esc'⟩ →
          (start = none → d' ≤ 0) →
          fjbGo len rest (i + 1) start d' inS' esc' =
            (mergeStart start
              ((firstTrigger startTrig (c :: rest) ⟨d, inS, esc⟩ 0).map (· + i)),
             match firstTrigger endTrig (c :: rest) ⟨d, inS, esc⟩ 0 with
             | some e => i + e + 1
             | none => len) := by
      intro d' inS' esc' hS hE hstep hinv'
      rw [ih (i + 1) start d' inS' esc' hinv']
      simp only [firstTrigger, hS, hE, hstep, Bool.false_eq_true, if_false]
      rw [firstTrigger_shift startTrig rest ⟨d', inS', esc'⟩ 1,
          firstTrigger_shift endTrig rest ⟨d', inS', esc'⟩ 1]
      simp only [Prod.mk.injEq]
      constructor
      · cases firstTrigger startTrig rest ⟨d', inS', esc'⟩ 0 <;>
          cases start <;> simp [mergeStart] <;> omega
      · cases firstTrigger endTrig rest ⟨d', inS', esc'⟩ 0 <;> simp <;> omega
    have stepSet :
        ∀ (d' : Int) (inS' esc' : Bool),
          startTrig ⟨d, inS, esc⟩ c = true →
          endTrig ⟨d, inS, esc⟩ c = false →
          scanStep ⟨d, inS, esc⟩ c = ⟨d', inS', esc'⟩ →
          fjbGo len rest (i + 1) (if start.isNone then some i else start) d' inS' esc' =
            (mergeStart start
              ((firstTrigger startTrig (c :: rest) ⟨d, inS, esc⟩ 0).map (· + i)),
             match firstTrigger endTrig (c :: rest) ⟨d, inS, esc⟩ 0 with
             | some e => i + e + 1
             | none => len) := by
      intro d' inS' esc' hS hE hstep
      have hss : (if start.isNone then some i else start) = none → d' ≤ 0 := by
        cases start <;> simp
      rw [ih (i + 1) _ d' inS' esc' hss]
      simp only [firstTrigger, hS, hE, hstep, Bool.false_eq_true, if_false, if_true]
      rw [firstTrigger_shift endTrig rest ⟨d', inS', esc'⟩ 1]
      simp only [Prod.mk.injEq]
      constructor
      · cases start <;> simp [mergeStart]
      · cases firstTrigger endTrig rest ⟨d', inS', esc'⟩ 0 <;> simp <;> omega
    by_cases hesc : esc = true
    · subst hesc
      rw [show fjbGo len (c :: rest) i start d inS true
            = fjbGo len rest (i + 1) start d inS false from by simp [fjbGo]]
      exact step d inS false (by simp [startTrig]) (by simp [endTrig])
        (by simp [scanStep]) hinv
    · rw [Bool.not_eq_true] at hesc
      subst hesc
      by_cases hq : c = '"'
      · subst hq
        by_cases hins : inS = true
        · subst hins
          rw [show fjbGo len ('"' :: rest) i start d true false
                = fjbGo len rest (i + 1) start d false false from by simp [fjbGo]]
          exact step d false false (by simp [startTrig]) (by simp [endTrig])
            (by simp [scanStep]) hinv
        · rw [Bool.not_eq_true] at hins
          subst hins
          rw [show fjbGo len ('"' :: rest) i start d false false
                = fjbGo len rest (i + 1) (if start.isNone then some i else start)
                    d true false from by simp [fjbGo]]
          exact stepSet d true false (by simp [startTrig]) (by simp [endTrig])
            (by simp [scanStep])
      · by_cases hbs : c = '\\'
        · subst hbs
          rw [show fjbGo len ('\\' :: rest) i start d inS false
                = fjbGo len rest (i + 1) start d inS true from by simp [fjbGo]]
          exact step d inS true (by simp [startTrig]) (by simp [endTrig])
            (by simp [scanStep]) hinv
        · by_cases hins : inS = true
          · subst hins
            rw [show fjbGo len (c :: rest) i start d true false
                  = fjbGo len rest (i + 1) start d true false from by
                simp [fjbGo, hq, hbs]]
            exact step d true false (by simp [startTrig, hq])
              (by simp [endTrig]) (by simp [scanStep, hq, hbs]) hinv
          · rw [Bool.not_eq_true] at hins
            subst hins
            by_cases hop : c = '{' ∨ c = '['
            · by_cases hd : d = 0
              · subst hd
                rw [show fjbGo len (c :: rest) i start 0 false false
                      = fjbGo len rest (i + 1)
                          (if start.isNone then some i else start) 1 false false from by
                    simp [fjbGo, hq, hbs, hop]]
                refine stepSet 1 false false ?_ ?_ ?_
                · rcases hop with h | h <;> subst h <;> simp [startTrig]
                · rcases hop with h | h <;> subst h <;> simp [endTrig]
                · rcases hop with h | h <;> subst h <;> simp [scanStep]
              · rw [show fjbGo len (c :: rest) i start d false false
                      = fjbGo len rest (i + 1) start (d + 1) false false from by
                    simp [fjbGo, hq, hbs, hop, hd]]
                refine step (d + 1) false false ?_ ?_ ?_ ?_
                · rcases hop with h | h <;> subst h <;>
                    simp [startTrig, beq_iff_eq] <;> omega
                · rcases hop with h | h <;> subst h <;> simp [endTrig]
                · rcases hop with h | h <;> subst h <;> simp [scanStep]
                · intro hn
                  have := hinv hn
                  omega
            · by_cases hcl : c = '}' ∨ c = ']'
              · by_cases hd1 : d - 1 = 0
                · -- the closer that returns the depth to 0: the early return
                  have hd' : d = 1 := by omega
                  subst hd'
                  have hstart : ∃ a, start = some a := by
                    cases start with
                    | none => exact absurd (hinv rfl) (by omega)
                    | some a => exact ⟨a, rfl⟩
                  obtain ⟨a, ha⟩ := hstart
                  subst ha
                  rw [show fjbGo len (c :: rest) i (some a) 1 false false
                        = (some a, i + 1) from by simp [fjbGo, hq, hbs, hop, hcl]]
                  have hE : endTrig ⟨1, false, false⟩ c = true := by
                    rcases hcl with h | h <;> subst h <;> simp [endTrig]
                  simp [firstTrigger, hE, mergeStart]
                · rw [show fjbGo len (c :: rest) i start d false false
                        = fjbGo len rest (i + 1) start (d - 1) false false from by
                      simp [fjbGo, hq, hbs, hop, hcl, hd1]]
                  refine step (d - 1) false false ?_ ?_ ?_ ?_
                  · rcases hcl with h | h <;> subst h <;> simp [startTrig]
                  · rcases hcl with h | h <;> subst h <;>
                      simp [endTrig, beq_iff_eq] <;> omega
                  · rcases hcl with h | h <;> subst h <;> simp [scanStep]
                  · intro hn
                    have := hinv hn
                    omega
              · rw [show fjbGo len (c :: rest) i start d false false
                      = fjbGo len rest (i + 1) start d false false from by
                    simp [fjbGo, hq, hbs, hop, hcl]]
                exact step d false false (by simp [startTrig, hq, hop])
                  (by simp [endTrig, hcl]) (by simp [scanStep, hq, hbs, hop, hcl]) hinv

/-- C7 (amended): `start` is the offset of the first character that either
opens a string or is a structural opener at depth 0 — whichever the
string/escape-aware scan meets first — and `end` is one past the offset of
the closer that returns the depth to 0, defaulting to the text length when
the depth never returns to 0. -/
theorem findJsonBoundaries_characterization (s : Str) :
    findJsonBoundaries s =
      (firstTrigger startTrig s initScanSt 0,
       match firstTrigger endTrig s initScanSt 0 with
       | some e => e + 1
       | none => s.length) := by
  rw [findJsonBoundaries,
    fjbGo_triggers s.length s 0 none 0 false false (fun _ => le_refl 0)]
  simp only [Prod.mk.injEq, initScanSt]
  constructor
  · cases firstTrigger startTrig s ⟨0, false, false⟩ 0 <;> simp [mergeStart]
  · cases firstTrigger endTrig s ⟨0, false, false⟩ 0 <;> simp

/-- C8: the claim states that when a tagged `json` fence exists, no
untagged fenced block contributes a candidate.  The guard
`!jsonBlockPattern.test(text)` uses a `/g` regex whose `lastIndex` was
advanced by the previous successful test, so on a text with one tagged and
one untagged block the second test fails and the untagged block's content
is pushed as a candidate anyway. -/
theorem extractJson_untagged_block_despite_tagged :
    (jsonBlockFind c8input 0).isSome = true ∧
    extractJsonRecs 5 c8input
      = [⟨.sBlock, "\x7b\"a\":1\x7d".toList, 0⟩,
         ⟨.sCode, "\x7b\"b\":2\x7d".toList, 20⟩] := by
  exact ⟨by decide, by decide⟩

/-- C9: the claim states idempotence: whenever `result.success`,
`parseLLMJson(result.rawJson).data` deep-equals `result.data`.  The input
"```\n5\n```" succeeds with `rawJson = "5"` and `data = 5`, but re-parsing
`"5"` fails (its trimmed length is below `extractValidJson`'s minimum of
2), returning `data = null ≠ 5`. -/
theorem parseLLMJson_not_idempotent :
    parseLLMJson 4 (.tstring c9input) (.vrecord defaultOptions)
      = some (.ok ⟨true, some (.jnum ['5']), some ['5'], none⟩) ∧
    parseLLMJson 4 (.tstring ['5']) (.vrecord defaultOptions)
      = some (.ok ⟨false, none, none, some noValidJsonMsg⟩) ∧
    (none : Option JValue) ≠ some (.jnum ['5']) := by
  exact ⟨by decide, by decide, by decide⟩

/-- C6 (amended): for every multi-line candidate whose trimmed form does
not already end with `}` or `]`, when depth counts show more `{` than `}`
and more `[` than `]`, the repair appends exactly one `}` and then one `]`
— in that fixed kind order, object closer first regardless of which opener
was opened most recently — and then strips trailing commas. -/
theorem fixCommonJsonIssues_append_order (aF : Bool) (s : Str)
    (h1 : s.contains '\n' = true)
    (h2 : endsWithChar '}' (trimJS s) = false)
    (h3 : endsWithChar ']' (trimJS s) = false)
    (h4 : s.count '}' < s.count '{')
    (h5 : s.count ']' < s.count '[') :
    fixCommonJsonIssues aF s = stripTrailingCommas (s ++ ['}', ']']) := by
  unfold fixCommonJsonIssues fixUnescapedQuotes
  have hc2 : (s ++ ['}']).count '[' = s.count '[' := by simp
  have hc3 : (s ++ ['}']).count ']' = s.count ']' := by simp
  simp only [h1, h2, h3, hc2, hc3, if_true, Bool.false_eq_true, not_false_eq_true,
    and_self, if_pos, gt_iff_lt]
  rw [if_pos h4, if_pos (by rw [hc2, hc3]; exact h5)]
  rw [List.append_assoc]
  rfl

/-- Witness for `fixCommonJsonIssues_append_order` at `"{"a":[1,\n"`. -/
theorem fixCommonJsonIssues_append_order_witness :
    fixCommonJsonIssues true c6input = stripTrailingCommas (c6input ++ ['}', ']']) :=
  fixCommonJsonIssues_append_order true c6input (by decide) (by decide) (by decide)
    (by decide) (by decide)

/-- Every early return of the truncate-and-reclose loop is a success record
carrying the parsed value and the exact string it decodes from. -/
theorem truncLoopF_found (cur : Str) :
    ∀ (f ti att : Nat) (r : ParseResult),
      truncLoopF cur f ti att = some (.found r) →
      ∃ s v, r = ⟨true, some v, some s, none⟩ ∧ jsonParse s = some v := by
  intro f
  induction f with
  | zero => intro ti att r h; simp [truncLoopF] at h
  | succ f ih =>
    intro ti att r h
    simp only [truncLoopF] at h
    split at h
    · split at h
      · split at h
        · injection h with h
          injection h with h
          exact ⟨(tryCompleteJson (cur.take ti)).json, _, h.symm, by assumption⟩
        · exact ih _ _ r h
        · exact ih _ _ r h
      · exact ih _ _ r h
    · injection h with h
      cases h

/-- The invariant of `partialOrFail` results: successes carry the decoded
value with its source string, failures carry nothing but an error. -/
theorem partialOrFail_inv (fuel : Nat) (aP : Bool) (cur : Str) (att : Nat)
    (r : ParseResult) (h : partialOrFail fuel aP cur att = some r) :
    (r.success = true → ∃ s' v, r.rawJson = some s' ∧ r.data = some v ∧ jsonParse s' = some v) ∧
    (r.success = false → r.data = none ∧ r.rawJson = none ∧ r.error.isSome = true) := by
  simp only [partialOrFail] at h
  by_cases hc : (aP : Prop) ∧ cur.length > 1000
  · rw [if_pos hc] at h
    cases hl : truncLoopF cur fuel (cur.length * 4 / 5) att with
    | none => rw [hl] at h; cases h
    | some lr =>
      rw [hl] at h
      cases lr with
      | found r' =>
        obtain ⟨s', v, hr', hp⟩ := truncLoopF_found cur fuel _ att r' hl
        injection h with h
        subst h; subst hr'
        refine ⟨fun _ => ⟨s', v, rfl, rfl, hp⟩, fun hf => ?_⟩
        cases hf
      | exhausted a =>
        injection h with h
        subst h
        exact ⟨(fun ht => nomatch ht), fun _ => ⟨rfl, rfl, rfl⟩⟩
  · rw [if_neg hc] at h
    injection h with h
    subst h
    exact ⟨(fun ht => nomatch ht), fun _ => ⟨rfl, rfl, rfl⟩⟩

/-- The invariant of every `tryParseJson` result. -/
theorem tryParseJson_inv (fuel : Nat) (aF aP : Bool) (s : Str) (r : ParseResult)
    (h : tryParseJson fuel aF aP s = some r) :
    (r.success = true → ∃ s' v, r.rawJson = some s' ∧ r.data = some v ∧ jsonParse s' = some v) ∧
    (r.success = false → r.data = none ∧ r.rawJson = none ∧ r.error.isSome = true) := by
  simp only [tryParseJson] at h
  by_cases he : (trimJS s).length = 0
  · rw [if_pos he] at h
    injection h with h
    subst h
    exact ⟨(fun ht => nomatch ht), fun _ => ⟨rfl, rfl, rfl⟩⟩
  · rw [if_neg he] at h
    split at h
    · injection h with h
      subst h
      exact ⟨(fun _ => ⟨trimJS s, _, rfl, rfl, by assumption⟩), fun hf => nomatch hf⟩
    · by_cases haf : (aF : Prop)
      · rw [if_pos haf] at h
        split at h
        · injection h with h
          subst h
          exact ⟨(fun _ => ⟨fixCommonJsonIssues aF (trimJS s), _, rfl, rfl, by assumption⟩),
            fun hf => nomatch hf⟩
        · split at h
          · split at h
            · injection h with h
              subst h
              exact ⟨(fun _ => ⟨_, _, rfl, rfl, by assumption⟩), fun hf => nomatch hf⟩
            · exact partialOrFail_inv fuel aP _ 1 r h
          · exact partialOrFail_inv fuel aP _ 1 r h
      · rw [if_neg haf] at h
        injection h with h
        subst h
        exact ⟨(fun ht => nomatch ht), fun _ => ⟨rfl, rfl, rfl⟩⟩

/-- The invariant of every success produced by a candidate loop. -/
theorem firstSuccess_inv (fuel : Nat) (aF aP : Bool) :
    ∀ (l : List Str) (r : ParseResult), firstSuccess fuel aF aP l = some (some r) →
      r.success = true ∧
        ∃ s' v, r.rawJson = some s' ∧ r.data = some v ∧ jsonParse s' = some v := by
  intro l
  induction l with
  | nil => intro r h; simp [firstSuccess] at h
  | cons c rest ih =>
    intro r h
    simp only [firstSuccess] at h
    split at h
    · cases h
    · rename_i t htp
      split at h
      · rename_i hs
        injection h with h
        injection h with h
        obtain ⟨s', v, hraw, hdata, hp⟩ := (tryParseJson_inv fuel aF aP c t htp).1 hs
        subst h
        exact ⟨rfl, s', v, hraw, hdata, hp⟩
      · exact ih r h

/-- Every `ParseResult` returned by the entry-point body is either a
success produced by a candidate loop, or one of its two fixed failure
records. -/
theorem parseLLMJsonCore_ok_cases (fuel : Nat) (aF : Bool) (mB : Nat) (aP : Bool)
    (response : TextVal) (r : ParseResult)
    (h : parseLLMJsonCore fuel aF mB aP response = some (.ok r)) :
    (r.success = true ∧ ∃ s v, r.rawJson = some s ∧ r.data = some v ∧ jsonParse s = some v) ∨
    r = ⟨false, none, none, some invalidInputMsg⟩ ∨
    r = ⟨false, none, none, some noValidJsonMsg⟩ := by
  cases response with
  | tnonstring =>
    simp only [parseLLMJsonCore] at h
    injection h with h
    injection h with h
    exact Or.inr (Or.inl h.symm)
  | tstring s =>
    simp only [parseLLMJsonCore] at h
    split at h
    · injection h with h
      injection h with h
      exact Or.inr (Or.inl h.symm)
    · split at h
      · cases h
      · rename_i r' hfs
        injection h with h
        injection h with h
        subst h
        exact Or.inl (firstSuccess_inv fuel aF aP _ r' hfs)
      · split at h
        · split at h
          · cases h
          · rename_i r' hfs
            injection h with h
            injection h with h
            subst h
            exact Or.inl (firstSuccess_inv fuel aF aP _ r' hfs)
          · injection h with h
            injection h with h
            exact Or.inr (Or.inr h.symm)
        · injection h with h
          injection h with h
          exact Or.inr (Or.inr h.symm)

/-- The body of the entry point never produces a `thrown` outcome. -/
theorem parseLLMJsonCore_no_throw (fuel : Nat) (aF : Bool) (mB : Nat) (aP : Bool)
    (response : TextVal) (out : Outcome)
    (h : parseLLMJsonCore fuel aF mB aP response = some out) :
    ∃ r, out = .ok r := by
  cases response with
  | tnonstring =>
    simp only [parseLLMJsonCore] at h
    injection h with h
    exact ⟨_, h.symm⟩
  | tstring s =>
    simp only [parseLLMJsonCore] at h
    split at h
    · injection h with h
      exact ⟨_, h.symm⟩
    · split at h
      · cases h
      · injection h with h
        exact ⟨_, h.symm⟩
      · split at h
        · split at h
          · cases h
          · injection h with h
            exact ⟨_, h.symm⟩
          · injection h with h
            exact ⟨_, h.symm⟩
        · injection h with h
          exact ⟨_, h.symm⟩

/-- Lifting of `parseLLMJsonCore_ok_cases` to the entry point. -/
theorem parseLLMJson_ok_cases (fuel : Nat) (response : TextVal) (options : OptVal)
    (r : ParseResult) (h : parseLLMJson fuel response options = some (.ok r)) :
    (r.success = true ∧ ∃ s v, r.rawJson = some s ∧ r.data = some v ∧ jsonParse s = some v) ∨
    r = ⟨false, none, none, some invalidInputMsg⟩ ∨
    r = ⟨false, none, none, some noValidJsonMsg⟩ := by
  cases options with
  | vnull => simp [parseLLMJson] at h
  | vundefined => exact parseLLMJsonCore_ok_cases _ _ _ _ _ r h
  | vrecord o => exact parseLLMJsonCore_ok_cases _ _ _ _ _ r h
  | vother => exact parseLLMJsonCore_ok_cases _ _ _ _ _ r h

/-- C2: for every call of `parseLLMJson` that returns a `ParseResult`,
`success` is `true` iff `data` is a decoded JSON value and `rawJson` a
string whose standard decode equals it, and `success` is `false` iff both
`data` and `rawJson` are absent. -/
theorem parseLLMJson_result_invariant (fuel : Nat) (response : TextVal)
    (options : OptVal) (r : ParseResult)
    (h : parseLLMJson fuel response options = some (.ok r)) :
    (r.success = true ↔ ∃ s v, r.rawJson = some s ∧ r.data = some v ∧ jsonParse s = some v) ∧
    (r.success = false ↔ r.data = none ∧ r.rawJson = none) := by
  rcases parseLLMJson_ok_cases fuel response options r h with
    ⟨hs, s', v, hraw, hdata, hpv⟩ | hr | hr
  · refine ⟨⟨fun _ => ⟨s', v, hraw, hdata, hpv⟩, fun _ => hs⟩, ?_, ?_⟩
    · intro hf
      rw [hs] at hf
      exact nomatch hf
    · rintro ⟨hd, -⟩
      rw [hdata] at hd
      exact nomatch hd
  · subst hr
    simp
  · subst hr
    simp

/-- Witness for `parseLLMJson_result_invariant` at the input `{"a":1}`. -/
theorem parseLLMJson_result_invariant_witness :
    (c2result.success = true ↔
      ∃ s v, c2result.rawJson = some s ∧ c2result.data = some v ∧ jsonParse s = some v) ∧
    (c2result.success = false ↔ c2result.data = none ∧ c2result.rawJson = none) :=
  parseLLMJson_result_invariant 4 (.tstring "\x7b\"a\":1\x7d".toList)
    (.vrecord defaultOptions) c2result (by decide)

/-- C4 (amended): for every text and every options value other than
`null`, no exception escapes `parseLLMJson`: every returned outcome is a
`ParseResult`, and every failure result carries `success: false` together
with an error message.  (With `null` options the destructuring throws
before the `try` block, see `parseLLMJson_throws_on_null_options`.) -/
theorem parseLLMJson_no_uncaught_throw (fuel : Nat) (response : TextVal)
    (options : OptVal) (out : Outcome) (hn : options ≠ .vnull)
    (h : parseLLMJson fuel response options = some out) :
    ∃ r, out = .ok r ∧ (r.success = false → r.error.isSome = true) := by
  have hok : ∃ r, out = .ok r := by
    cases options with
    | vnull => exact absurd rfl hn
    | vundefined => exact parseLLMJsonCore_no_throw _ _ _ _ _ out h
    | vrecord o => exact parseLLMJsonCore_no_throw _ _ _ _ _ out h
    | vother => exact parseLLMJsonCore_no_throw _ _ _ _ _ out h
  obtain ⟨r, hr⟩ := hok
  subst hr
  refine ⟨r, rfl, ?_⟩
  rcases parseLLMJson_ok_cases fuel response options r h with ⟨hs, -⟩ | hrec | hrec
  · intro hf
    rw [hs] at hf
    exact nomatch hf
  · subst hrec
    intro _
    rfl
  · subst hrec
    intro _
    rfl

/-- Witness for `parseLLMJson_no_uncaught_throw` at text `"x"` and the
default options record. -/
theorem parseLLMJson_no_uncaught_throw_witness :
    ∃ r, (Outcome.ok ⟨false, none, none, some noValidJsonMsg⟩) = .ok r ∧
      (r.success = false → r.error.isSome = true) :=
  parseLLMJson_no_uncaught_throw 2 (.tstring ['x']) (.vrecord defaultOptions)
    (.ok ⟨false, none, none, some noValidJsonMsg⟩) (by decide) (by decide)

/-- C10: the returned result is independent of the `preferFirst` option:
it is destructured (source line 5) but never consulted by any extraction,
ordering, repair, or parsing step. -/
theorem parseLLMJson_ignores_preferFirst (fuel : Nat) (response : TextVal)
    (o : Options) (b1 b2 : Bool) :
    parseLLMJson fuel response (.vrecord { o with preferFirst := b1 })
      = parseLLMJson fuel response (.vrecord { o with preferFirst := b2 }) := by
  cases o
  rfl

/-! ### Evaluation toolkit for the long inputs

Inputs beyond roughly a thousand characters exceed what kernel reduction
handles, so the two long-input claims are settled by induction lemmas over
`List.replicate` instead of by `decide`. -/

theorem dropWhile_eq_self_of {p : Char → Bool} :
    ∀ {s : Str}, (∀ c ∈ s, p c = false) → s.dropWhile p = s
  | [], _ => rfl
  | c :: _, h => by simp [List.dropWhile_cons, h c (by simp)]

theorem trimJS_eq_self {s : Str} (h : ∀ c ∈ s, isTrimWs c = false) : trimJS s = s := by
  unfold trimJS
  rw [dropWhile_eq_self_of h,
    dropWhile_eq_self_of (fun c hc => h c (List.mem_reverse.mp hc)),
    List.reverse_reverse]

theorem contains_eq_false {a : Char} {s : Str} (h : a ∉ s) : s.contains a = false := by
  induction s with
  | nil => rfl
  | cons c rest ih =>
    have h1 : ¬(a = c) := fun hh => h (by simp [hh])
    have h2 : a ∉ rest := fun hh => h (by simp [hh])
    simp only [List.contains_cons, ih h2, Bool.or_false]
    exact beq_eq_false_iff_ne.mpr h1

theorem takeWhile_replicate_append {p : Char → Bool} {c : Char} (hc : p c = true) :
    ∀ (n : Nat) (rest : Str),
      (List.replicate n c ++ rest).takeWhile p = List.replicate n c ++ rest.takeWhile p
  | 0, rest => by simp
  | n + 1, rest => by
    simp [List.replicate_succ, List.takeWhile_cons, hc,
      takeWhile_replicate_append hc n rest]

theorem dropWhile_replicate_append {p : Char → Bool} {c : Char} (hc : p c = true) :
    ∀ (n : Nat) (rest : Str),
      (List.replicate n c ++ rest).dropWhile p = rest.dropWhile p
  | 0, rest => by simp
  | n + 1, rest => by
    simp [List.replicate_succ, List.dropWhile_cons, hc,
      dropWhile_replicate_append hc n rest]

theorem findSubGo_skip {p : Char} {ps : Str} {c : Char} (h : ¬(p = c)) :
    ∀ (n : Nat) (rest : Str) (i : Nat),
      findSubGo (p :: ps) (List.replicate n c ++ rest) i = findSubGo (p :: ps) rest (n + i)
  | 0, rest, i => by simp
  | n + 1, rest, i => by
    rw [List.replicate_succ, List.cons_append,
      show findSubGo (p :: ps) (c :: (List.replicate n c ++ rest)) i
          = findSubGo (p :: ps) (List.replicate n c ++ rest) (i + 1) from by
        simp [findSubGo, leadsWith, h],
      findSubGo_skip h n rest (i + 1)]
    congr 1
    omega

theorem firstIdxGo_eq_none {p : Char → Bool} :
    ∀ {s : Str}, (∀ c ∈ s, p c = false) → ∀ (i : Nat), firstIdxGo p s i = none
  | [], _, _ => rfl
  | c :: rest, h, i => by
    simp only [firstIdxGo, h c (by simp), Bool.false_eq_true, if_false]
    exact firstIdxGo_eq_none (fun d hd => h d (by simp [hd])) (i + 1)

theorem firstIdxGo_skip {p : Char → Bool} {c : Char} (hc : p c = false) :
    ∀ (n : Nat) (rest : Str) (i : Nat),
      firstIdxGo p (List.replicate n c ++ rest) i = firstIdxGo p rest (n + i)
  | 0, rest, i => by simp
  | n + 1, rest, i => by
    rw [List.replicate_succ, List.cons_append,
      show firstIdxGo p (c :: (List.replicate n c ++ rest)) i
          = firstIdxGo p (List.replicate n c ++ rest) (i + 1) from by
        simp [firstIdxGo, hc],
      firstIdxGo_skip hc n rest (i + 1)]
    congr 1
    omega

theorem lastIdxOfChar_eq_none {a : Char} {s : Str} (h : a ∉ s) :
    lastIdxOfChar a s = none := by
  unfold lastIdxOfChar
  rw [firstIdxGo_eq_none (fun c hc => ?_) 0]
  · simp
    exact fun hh => h (hh ▸ List.mem_reverse.mp hc)

theorem stcGo_no_comma :
    ∀ {s : Str}, (∀ c ∈ s, ¬(c = ',')) → stcGo none s = s
  | [], _ => rfl
  | c :: rest, h => by
    simp only [stcGo]
    rw [if_neg (h c (by simp)), stcGo_no_comma (fun d hd => h d (by simp [hd]))]

theorem braceScanGo_skip {c : Char}
    (hstep : ∀ (t : Str) (j : Nat), braceScanGo (c :: t) j = braceScanGo t (j + 1)) :
    ∀ (n : Nat) (rest : Str) (i : Nat),
      braceScanGo (List.replicate n c ++ rest) i = braceScanGo rest (n + i)
  | 0, rest, i => by simp
  | n + 1, rest, i => by
    rw [List.replicate_succ, List.cons_append,
      hstep (List.replicate n c ++ rest) i,
      braceScanGo_skip hstep n rest (i + 1)]
    congr 1
    omega

theorem bracketScanGo_skip {c : Char}
    (hstep : ∀ (t : Str) (j : Nat), bracketScanGo (c :: t) j = bracketScanGo t (j + 1)) :
    ∀ (n : Nat) (rest : Str) (i : Nat),
      bracketScanGo (List.replicate n c ++ rest) i = bracketScanGo rest (n + i)
  | 0, rest, i => by simp
  | n + 1, rest, i => by
    rw [List.replicate_succ, List.cons_append,
      hstep (List.replicate n c ++ rest) i,
      bracketScanGo_skip hstep n rest (i + 1)]
    congr 1
    omega

/-- A plain character (no quote, backslash, bracket or brace) outside a
string advances `fjbGo` without changing any state. -/
theorem fjbGo_skip (len : Nat) {c : Char}
    (h1 : ¬(c = '"')) (h2 : ¬(c = '\\')) (h3 : ¬(c = '{' ∨ c = '['))
    (h4 : ¬(c = '}' ∨ c = ']')) :
    ∀ (n : Nat) (rest : Str) (i : Nat) (start : Option Nat) (d : Int),
      fjbGo len (List.replicate n c ++ rest) i start d false false
        = fjbGo len rest (n + i) start d false false
  | 0, rest, i, start, d => by simp
  | n + 1, rest, i, start, d => by
    rw [List.replicate_succ, List.cons_append,
      show fjbGo len (c :: (List.replicate n c ++ rest)) i start d false false
          = fjbGo len (List.replicate n c ++ rest) (i + 1) start d false false from by
        simp [fjbGo, h1, h2, h3, h4],
      fjbGo_skip len h1 h2 h3 h4 n rest (i + 1) start d]
    congr 1
    omega

/-- A plain character outside a string is accumulated by the segment
splitter without changing counters or emitting segments. -/
theorem evjGo_skip {c : Char}
    (h1 : ¬(c = '"')) (h2 : ¬(c = '\\')) (h3 : ¬(c = '{' ∨ c = '['))
    (h4 : ¬(c = '}' ∨ c = ']')) :
    ∀ (n : Nat) (rest cur : Str) (brc brk : Int) (segs : List Str),
      evjGo (List.replicate n c ++ rest) cur brc brk false false segs
        = evjGo rest (List.replicate n c ++ cur) brc brk false false segs
  | 0, rest, cur, brc, brk, segs => by simp
  | n + 1, rest, cur, brc, brk, segs => by
    rw [List.replicate_succ, List.cons_append,
      show evjGo (c :: (List.replicate n c ++ rest)) cur brc brk false false segs
          = evjGo (List.replicate n c ++ rest) (c :: cur) brc brk false false segs from by
        simp [evjGo, h1, h2, h3, h4],
      evjGo_skip h1 h2 h3 h4 n rest (c :: cur) brc brk segs]
    congr 1
    show List.replicate n c ++ ([c] ++ cur) = ([c] ++ List.replicate n c) ++ cur
    rw [← List.append_assoc, ← List.replicate_succ', List.replicate_succ]
    rfl

/-! ### Claim C3: the truncate-and-reclose loop need not terminate -/

theorem c3_chars {c : Char} (h : c ∈ c3input) : c = '1' ∨ c = 'x' := by
  rw [c3input] at h
  rcases List.mem_append.mp h with h1 | h1
  · exact Or.inl (List.eq_of_mem_replicate h1)
  · simp at h1
    exact Or.inr h1

theorem trimJS_c3 : trimJS c3input = c3input := by
  refine trimJS_eq_self (fun c hc => ?_)
  rcases c3_chars hc with h | h <;> subst h <;> decide

theorem length_c3 : c3input.length = 1002 := by
  rw [c3input, List.length_append, List.length_replicate]
  rfl

theorem findSubGo_tick_c3 (ps : Str) (i : Nat) :
    findSubGo ('\x60' :: ps) c3input i = none := by
  rw [c3input, findSubGo_skip (by decide) 1001 ['x'] i]
  have hlw : leadsWith ('\x60' :: ps) ['x'] = false := by
    simp [leadsWith]
  rw [findSubGo, if_neg (by simp [hlw]), findSubGo]
  rfl

theorem jsonBlockFind_c3 : jsonBlockFind c3input 0 = none := by
  have hL : findSubFrom fenceJsonL c3input 0 = none := by
    unfold findSubFrom
    rw [List.drop_zero,
      show fenceJsonL = '\x60' :: ['\x60', '\x60', 'j', 's', 'o', 'n'] from rfl,
      findSubGo_tick_c3]
    rfl
  have hU : findSubFrom fenceJsonU c3input 0 = none := by
    unfold findSubFrom
    rw [List.drop_zero,
      show fenceJsonU = '\x60' :: ['\x60', '\x60', 'J', 'S', 'O', 'N'] from rfl,
      findSubGo_tick_c3]
    rfl
  simp [jsonBlockFind, hL, hU, minIdx]

theorem codeBlockFind_c3 : codeBlockFind c3input 0 = none := by
  have hB : findSubFrom backticks c3input 0 = none := by
    unfold findSubFrom
    rw [List.drop_zero, show backticks = '\x60' :: ['\x60', '\x60'] from rfl,
      findSubGo_tick_c3]
    rfl
  simp [codeBlockFind, hB]

theorem braceScanFrom_c3 : braceScanFrom c3input 0 = none := by
  unfold braceScanFrom
  rw [List.drop_zero, c3input, @braceScanGo_skip '1' (fun _ _ => rfl) 1001 ['x'] 0]
  rfl

theorem bracketScanFrom_c3 : bracketScanFrom c3input 0 = none := by
  unfold bracketScanFrom
  rw [List.drop_zero, c3input, @bracketScanGo_skip '1' (fun _ _ => rfl) 1001 ['x'] 0]
  rfl

theorem extractJson_c3 : extractJson 5 c3input = [] := by
  have hj : jsonBlockLoop c3input 5 0 [] = (([] : List Cand), 0) := by
    rw [jsonBlockLoop, jsonBlockFind_c3]
  have hco : codeBlockLoop c3input (c3input.length + 1) 5 0 0 [] = [] := by
    rw [codeBlockLoop, codeBlockFind_c3]
  have hbr : braceLoop c3input 5 0 [] = [] := by
    rw [braceLoop, braceScanFrom_c3]
  have hbk : bracketLoop c3input 5 0 [] = [] := by
    rw [bracketLoop, bracketScanFrom_c3]
  simp only [extractJson, extractJsonRecs, hj, List.length_nil, Nat.sub_zero, hco, hbr, hbk]
  rfl

theorem findJsonBoundaries_c3 : findJsonBoundaries c3input = (none, 1002) := by
  rw [show findJsonBoundaries c3input = fjbGo 1002 c3input 0 none 0 false false from by
      rw [findJsonBoundaries, length_c3],
    c3input,
    fjbGo_skip 1002 (by decide) (by decide) (by decide) (by decide) 1001 ['x'] 0 none 0,
    show fjbGo 1002 ['x'] (1001 + 0) none 0 false false
        = fjbGo 1002 [] (1001 + 0 + 1) none 0 false false from by
      simp [fjbGo]]
  rfl

theorem c3input_ne_nil : c3input.isEmpty = false := by
  cases hc : c3input with
  | nil =>
    have h2 := length_c3
    rw [hc] at h2
    simp at h2
  | cons a t => rfl

theorem extractValidJson_c3 : extractValidJson c3input = [c3input] := by
  rw [extractValidJson, findJsonBoundaries_c3]
  rw [if_neg (by rw [trimJS_c3, length_c3]; omega)]
  conv_lhs => rw [c3input]
  rw [evjGo_skip (by decide) (by decide) (by decide) (by decide) 1001 ['x'] [] 0 0 [],
    List.append_nil,
    show evjGo ['x'] (List.replicate 1001 '1') 0 0 false false []
        = evjGo [] ('x' :: List.replicate 1001 '1') 0 0 false false [] from by
      generalize List.replicate 1001 '1' = cur
      simp [evjGo],
    evjGo,
    show ('x' :: List.replicate 1001 '1').reverse = c3input from by
      rw [List.reverse_cons, List.reverse_replicate, c3input],
    trimJS_c3, c3input_ne_nil]
  simp [trimJS_c3, length_c3]

theorem lexNumber_digits_x (n : Nat) :
    lexNumber (List.replicate (n + 1) '1' ++ ['x'])
      = some (List.replicate (n + 1) '1', ['x']) := by
  have hc : List.replicate (n + 1) '1' ++ ['x'] = '1' :: (List.replicate n '1' ++ ['x']) := by
    rw [List.replicate_succ]
    rfl
  have ht : (List.replicate (n + 1) '1' ++ ['x']).takeWhile Char.isDigit
      = List.replicate (n + 1) '1' := by
    rw [takeWhile_replicate_append (by decide)]
    simp
  have hd : (List.replicate (n + 1) '1' ++ ['x']).dropWhile Char.isDigit = ['x'] := by
    rw [dropWhile_replicate_append (by decide)]
    rfl
  unfold lexNumber
  rw [hc] at ht hd ⊢
  simp only [List.span_eq_take_drop, ht, hd]
  simp [List.replicate_succ]

theorem lexNumber_digits (n : Nat) :
    lexNumber (List.replicate (n + 1) '1') = some (List.replicate (n + 1) '1', []) := by
  have hc : List.replicate (n + 1) '1' = '1' :: List.replicate n '1' := by
    rw [List.replicate_succ]
  have ht : (List.replicate (n + 1) '1').takeWhile Char.isDigit
      = List.replicate (n + 1) '1' := by
    rw [show (List.replicate (n + 1) '1' : Str) = List.replicate (n + 1) '1' ++ [] from by simp,
      takeWhile_replicate_append (by decide)]
    simp
  have hd : (List.replicate (n + 1) '1').dropWhile Char.isDigit = [] := by
    rw [show (List.replicate (n + 1) '1' : Str) = List.replicate (n + 1) '1' ++ [] from by simp,
      dropWhile_replicate_append (by decide)]
    rfl
  unfold lexNumber
  rw [hc] at ht hd ⊢
  simp only [List.span_eq_take_drop, ht, hd]
  simp [List.replicate_succ]

theorem jsonParse_digits (n : Nat) :
    jsonParse (List.replicate (n + 1) '1') = some (.jnum (List.replicate (n + 1) '1')) := by
  have hws : skipWs (List.replicate (n + 1) '1') = '1' :: List.replicate n '1' := by
    rw [List.replicate_succ]
    simp [skipWs, List.dropWhile_cons, isJsonWs]
  rw [jsonParse, List.length_replicate,
    show 2 * (n + 1) + 8 = (2 * n + 9) + 1 from by omega,
    parseValueF, hws]
  simp only [← List.replicate_succ]
  simp [lexNumber_digits n, skipWs]

theorem jsonParse_digits_x (n : Nat) :
    jsonParse (List.replicate (n + 1) '1' ++ ['x']) = none := by
  have hws : skipWs (List.replicate (n + 1) '1' ++ ['x'])
      = '1' :: (List.replicate n '1' ++ ['x']) := by
    rw [List.replicate_succ, List.cons_append]
    simp [skipWs, List.dropWhile_cons, isJsonWs]
  rw [jsonParse,
    show 2 * (List.replicate (n + 1) '1' ++ ['x']).length + 8 = (2 * n + 11) + 1 from by
      simp
      omega,
    parseValueF, hws]
  simp only [← List.cons_append, ← List.replicate_succ]
  simp [lexNumber_digits_x n, skipWs, isJsonWs]

theorem jsonParse_c3 : jsonParse c3input = none := by
  rw [c3input, show (1001 : Nat) = 1000 + 1 from rfl]
  exact jsonParse_digits_x 1000

theorem c3take : c3input.take 801 = List.replicate 801 '1' := by
  rw [c3input, List.take_append_of_le_length (by rw [List.length_replicate]; omega),
    List.take_replicate]
  rfl

theorem tryCompleteJson_c3 :
    tryCompleteJson (List.replicate 801 '1') = ⟨List.replicate 801 '1', false⟩ := by
  have ht : trimJS (List.replicate 801 '1') = List.replicate 801 '1' :=
    trimJS_eq_self (fun c hc => by
      have h := List.eq_of_mem_replicate hc
      subst h
      decide)
  simp only [tryCompleteJson, ht]
  rw [lastIdxOfChar_eq_none (fun hm => absurd (List.eq_of_mem_replicate hm) (by decide)),
    lastIdxOfChar_eq_none (fun hm => absurd (List.eq_of_mem_replicate hm) (by decide))]
  rfl

set_option maxRecDepth 4000 in
theorem truncLoopF_c3 : ∀ f, truncLoopF c3input f 801 1 = none
  | 0 => rfl
  | f + 1 => by
    simp only [truncLoopF]
    rw [if_pos (by omega), c3take, tryCompleteJson_c3,
      show (801 : Nat) = 800 + 1 from rfl, jsonParse_digits 800]
    exact truncLoopF_c3 f

theorem partialOrFail_c3 (fuel : Nat) : partialOrFail fuel true c3input 1 = none := by
  unfold partialOrFail
  rw [if_pos (⟨rfl, by rw [length_c3]; omega⟩ : true = true ∧ c3input.length > 1000),
    length_c3, show (1002 * 4 / 5 : Nat) = 801 from rfl, truncLoopF_c3 fuel]

set_option maxRecDepth 100000 in
theorem fixCommonJsonIssues_c3 : fixCommonJsonIssues true c3input = c3input := by
  have hn : c3input.contains '\n' = false :=
    contains_eq_false (fun hm => by
      rcases c3_chars hm with h | h <;> exact absurd h (by decide))
  have hcm : stripTrailingCommas c3input = c3input :=
    stcGo_no_comma (fun c hc => by
      rcases c3_chars hc with h | h <;> subst h <;> decide)
  have hsb : startsWithChar '\x7b' c3input = false := by rfl
  have hsk : startsWithChar '[' c3input = false := by rfl
  simp only [fixCommonJsonIssues, fixUnescapedQuotes, hn, Bool.false_eq_true, if_false,
    trimJS_c3, hsb, hsk, false_and, hcm]

theorem tryParseJson_c3 (fuel : Nat) : tryParseJson fuel true true c3input = none := by
  unfold tryParseJson
  rw [trimJS_c3, if_neg (by rw [length_c3]; omega)]
  dsimp only
  rw [jsonParse_c3]
  dsimp only
  rw [fixCommonJsonIssues_c3, jsonParse_c3]
  dsimp only
  rw [extractValidJson_c3]
  dsimp only [List.head?]
  rw [jsonParse_c3]
  dsimp only
  rw [partialOrFail_c3 fuel]
  rfl

theorem firstSuccess_fail_c3 (fuel : Nat) :
    firstSuccess fuel true true [c3input] = none := by
  rw [firstSuccess, tryParseJson_c3]

/-- C3: REFUTED.  The truncate-and-reclose recovery loop of `tryParseJson`
does not always make progress: on the 1002-character input `c3input`
(1001 copies of `1` followed by `x`) with `allowPartial` enabled, every
truncation parses as a JSON number, the guard
`completed.valid || Object.keys(parsed).length > 0` is false (a number
has zero keys), and the loop body then neither returns nor updates
`tryIndex` or `attempts`, so the `while` loop repeats the same state
forever.  The fuelled model accordingly returns `none` (fuel exhausted,
i.e. non-termination) for EVERY fuel bound, refuting the claim that
`parseLLMJson` always terminates with at most 3 retries. -/
theorem parseLLMJson_partial_loop_diverges (fuel : Nat) :
    parseLLMJson fuel (.tstring c3input) (.vrecord partialOptions) = none := by
  show parseLLMJsonCore fuel true 5 true (.tstring c3input) = none
  unfold parseLLMJsonCore
  dsimp only
  rw [if_neg (by rw [c3input_ne_nil]; decide), extractJson_c3,
    if_pos (show (List.isEmpty ([] : List Str)) = true from rfl),
    extractValidJson_c3, List.nil_append,
    show dedupFirst [c3input] = [c3input] from rfl, firstSuccess_fail_c3 fuel]

theorem c5_chars {c : Char} (h : c ∈ c5input) : c = '\x7b' ∨ c = '[' ∨ c = 'x' := by
  rw [c5input] at h
  rcases List.mem_cons.mp h with h1 | h1
  · exact Or.inl h1
  rcases List.mem_cons.mp h1 with h2 | h2
  · exact Or.inr (Or.inl h2)
  · exact Or.inr (Or.inr (List.eq_of_mem_replicate h2))

theorem trimJS_c5 : trimJS c5input = c5input := by
  refine trimJS_eq_self (fun c hc => ?_)
  rcases c5_chars hc with h | h | h <;> subst h <;> decide

theorem length_c5 : c5input.length = 1202 := by
  rw [c5input, List.length_cons, List.length_cons, List.length_replicate]

theorem length_c5current : c5current.length = 1203 := by
  rw [c5current, List.length_append, length_c5]
  rfl

theorem trimJS_c5current : trimJS c5current = c5current := by
  refine trimJS_eq_self (fun c hc => ?_)
  rw [c5current] at hc
  rcases List.mem_append.mp hc with h1 | h1
  · rcases c5_chars h1 with h | h | h <;> subst h <;> decide
  · simp at h1
    subst h1
    decide

theorem findSubGo_tick_step (ps : Str) (c : Char) (hc : ¬('\x60' = c)) (t : Str) (i : Nat) :
    findSubGo ('\x60' :: ps) (c :: t) i = findSubGo ('\x60' :: ps) t (i + 1) := by
  simp [findSubGo, leadsWith, hc]

theorem findSubGo_tick_c5 (ps : Str) (i : Nat) :
    findSubGo ('\x60' :: ps) c5input i = none := by
  rw [c5input, findSubGo_tick_step ps '\x7b' (by decide), findSubGo_tick_step ps '[' (by decide),
    show (List.replicate 1200 'x' : Str) = List.replicate 1200 'x' ++ [] from
      (List.append_nil _).symm,
    findSubGo_skip (by decide) 1200 [] (i + 1 + 1), findSubGo]
  rfl

theorem jsonBlockFind_c5 : jsonBlockFind c5input 0 = none := by
  have hL : findSubFrom fenceJsonL c5input 0 = none := by
    unfold findSubFrom
    rw [List.drop_zero,
      show fenceJsonL = '\x60' :: ['\x60', '\x60', 'j', 's', 'o', 'n'] from rfl,
      findSubGo_tick_c5]
    rfl
  have hU : findSubFrom fenceJsonU c5input 0 = none := by
    unfold findSubFrom
    rw [List.drop_zero,
      show fenceJsonU = '\x60' :: ['\x60', '\x60', 'J', 'S', 'O', 'N'] from rfl,
      findSubGo_tick_c5]
    rfl
  simp [jsonBlockFind, hL, hU, minIdx]

theorem codeBlockFind_c5 : codeBlockFind c5input 0 = none := by
  have hB : findSubFrom backticks c5input 0 = none := by
    unfold findSubFrom
    rw [List.drop_zero, show backticks = '\x60' :: ['\x60', '\x60'] from rfl,
      findSubGo_tick_c5]
    rfl
  simp [codeBlockFind, hB]

theorem braceScanGo_c5_step (t : Str) (i : Nat) :
    braceScanGo ('\x7b' :: '[' :: 'x' :: t) i = braceScanGo t (i + 1 + 1 + 1) := rfl

theorem braceScanFrom_c5 : braceScanFrom c5input 0 = none := by
  unfold braceScanFrom
  rw [List.drop_zero, c5input, show (1200 : Nat) = 1199 + 1 from rfl, List.replicate_succ,
    braceScanGo_c5_step,
    show (List.replicate 1199 'x' : Str) = List.replicate 1199 'x' ++ [] from
      (List.append_nil _).symm,
    @braceScanGo_skip 'x' (fun _ _ => rfl) 1199 [] (0 + 1 + 1 + 1)]
  rfl

theorem bracketScanGo_c5_step (t : Str) (i : Nat) :
    bracketScanGo ('\x7b' :: '[' :: 'x' :: 'x' :: t) i
      = bracketScanGo t (i + 1 + 1 + 1 + 1) := rfl

theorem bracketScanFrom_c5 : bracketScanFrom c5input 0 = none := by
  unfold bracketScanFrom
  rw [List.drop_zero, c5input, show (1200 : Nat) = 1198 + 1 + 1 from rfl, List.replicate_succ,
    List.replicate_succ, bracketScanGo_c5_step,
    show (List.replicate 1198 'x' : Str) = List.replicate 1198 'x' ++ [] from
      (List.append_nil _).symm,
    @bracketScanGo_skip 'x' (fun _ _ => rfl) 1198 [] (0 + 1 + 1 + 1 + 1)]
  rfl

theorem extractJson_c5 : extractJson 5 c5input = [] := by
  have hj : jsonBlockLoop c5input 5 0 [] = (([] : List Cand), 0) := by
    rw [jsonBlockLoop, jsonBlockFind_c5]
  have hco : codeBlockLoop c5input (c5input.length + 1) 5 0 0 [] = [] := by
    rw [codeBlockLoop, codeBlockFind_c5]
  have hbr : braceLoop c5input 5 0 [] = [] := by
    rw [braceLoop, braceScanFrom_c5]
  have hbk : bracketLoop c5input 5 0 [] = [] := by
    rw [bracketLoop, bracketScanFrom_c5]
  simp only [extractJson, extractJsonRecs, hj, List.length_nil, Nat.sub_zero, hco, hbr, hbk]
  rfl

theorem findJsonBoundaries_c5 : findJsonBoundaries c5input = (some 0, 1202) := by
  rw [show findJsonBoundaries c5input = fjbGo 1202 c5input 0 none 0 false false from by
      rw [findJsonBoundaries, length_c5],
    c5input,
    show fjbGo 1202 ('\x7b' :: '[' :: List.replicate 1200 'x') 0 none 0 false false
        = fjbGo 1202 (List.replicate 1200 'x') 2 (some 0) 2 false false from by
      generalize List.replicate 1200 'x' = t
      simp [fjbGo],
    show (List.replicate 1200 'x' : Str) = List.replicate 1200 'x' ++ [] from
      (List.append_nil _).symm,
    fjbGo_skip 1202 (by decide) (by decide) (by decide) (by decide) 1200 [] 2 (some 0) 2]
  rfl

theorem findJsonBoundaries_c5current : findJsonBoundaries c5current = (some 0, 1203) := by
  rw [show findJsonBoundaries c5current = fjbGo 1203 c5current 0 none 0 false false from by
      rw [findJsonBoundaries, length_c5current],
    c5current, c5input, List.cons_append, List.cons_append,
    show fjbGo 1203 ('\x7b' :: '[' :: (List.replicate 1200 'x' ++ ['\x7d'])) 0 none 0 false false
        = fjbGo 1203 (List.replicate 1200 'x' ++ ['\x7d']) 2 (some 0) 2 false false from by
      generalize List.replicate 1200 'x' ++ ['\x7d'] = t
      simp [fjbGo],
    fjbGo_skip 1203 (by decide) (by decide) (by decide) (by decide) 1200 ['\x7d'] 2 (some 0) 2]
  decide

theorem extractValidJson_c5 : extractValidJson c5input = [c5input] := by
  unfold extractValidJson
  rw [if_neg (by rw [trimJS_c5, length_c5]; omega), findJsonBoundaries_c5]
  dsimp only
  rw [if_pos (by omega), List.drop_zero, ← length_c5, List.take_length]

theorem extractValidJson_c5current : extractValidJson c5current = [c5current] := by
  unfold extractValidJson
  rw [if_neg (by rw [trimJS_c5current, length_c5current]; omega), findJsonBoundaries_c5current]
  dsimp only
  rw [if_pos (by omega), List.drop_zero, ← length_c5current, List.take_length]

theorem parseObjectF_bracket (f : Nat) (t : Str) :
    parseObjectF (f + 1) ('[' :: t) = none := rfl

theorem jsonParse_obj_bracket (t : Str) : jsonParse ('\x7b' :: '[' :: t) = none := by
  rw [jsonParse,
    show (2 * List.length ('\x7b' :: '[' :: t) + 8 : Nat)
        = ((2 * List.length t + 10) + 1) + 1 from by
      simp only [List.length_cons]
      omega]
  rfl

theorem jsonParse_c5 : jsonParse c5input = none := by
  rw [c5input]
  exact jsonParse_obj_bracket _

theorem jsonParse_c5current : jsonParse c5current = none := by
  rw [c5current, c5input, List.cons_append, List.cons_append]
  exact jsonParse_obj_bracket _

theorem c5tr_len : ('\x7b' :: '[' :: List.replicate 960 'x' : Str).length = 962 := by
  rw [List.length_cons, List.length_cons, List.length_replicate]

theorem c5tr_rev : ('\x7b' :: '[' :: List.replicate 960 'x' : Str).reverse
    = List.replicate 960 'x' ++ ['[', '\x7b'] := by
  rw [List.reverse_cons, List.reverse_cons, List.reverse_replicate, List.append_assoc]
  rfl

theorem lastBrace_c5tr :
    lastIdxOfChar '\x7b' ('\x7b' :: '[' :: List.replicate 960 'x') = some 0 := by
  unfold lastIdxOfChar
  rw [c5tr_rev, firstIdxGo_skip (by decide) 960 ['[', '\x7b'] 0, c5tr_len]
  decide

theorem lastBracket_c5tr :
    lastIdxOfChar '[' ('\x7b' :: '[' :: List.replicate 960 'x') = some 1 := by
  unfold lastIdxOfChar
  rw [c5tr_rev, firstIdxGo_skip (by decide) 960 ['[', '\x7b'] 0, c5tr_len]
  decide

theorem trimJS_c5tr : trimJS ('\x7b' :: '[' :: List.replicate 960 'x')
    = '\x7b' :: '[' :: List.replicate 960 'x' := by
  refine trimJS_eq_self (fun c hc => ?_)
  rcases List.mem_cons.mp hc with h1 | h1
  · subst h1
    decide
  rcases List.mem_cons.mp h1 with h2 | h2
  · subst h2
    decide
  · have h := List.eq_of_mem_replicate h2
    subst h
    decide

theorem tryCompleteJson_c5tr :
    tryCompleteJson ('\x7b' :: '[' :: List.replicate 960 'x') = ⟨['\x7b', '\x7d'], true⟩ := by
  simp only [tryCompleteJson, trimJS_c5tr]
  rw [lastBrace_c5tr, lastBracket_c5tr, maxIdx]
  dsimp only
  rw [show ('\x7b' :: '[' :: List.replicate 960 'x' : Str).take (max 0 1) = ['\x7b'] from rfl,
    show ('\x7b' :: '[' :: List.replicate 960 'x' : Str).contains '\x7b' = true from rfl,
    show ('\x7b' :: '[' :: List.replicate 960 'x' : Str).contains '[' = true from rfl]
  rfl

theorem c5current_take : c5current.take 962 = '\x7b' :: '[' :: List.replicate 960 'x' := by
  rw [c5current, c5input, List.cons_append, List.cons_append,
    show (962 : Nat) = 961 + 1 from rfl, List.take_succ_cons,
    show (961 : Nat) = 960 + 1 from rfl, List.take_succ_cons,
    List.take_append_of_le_length (by rw [List.length_replicate]; omega),
    List.take_replicate]
  rfl

set_option maxRecDepth 4000 in
theorem truncLoopF_c5 (f : Nat) :
    truncLoopF c5current (f + 1) 962 1
      = some (.found ⟨true, some (.jobj []), some ['\x7b', '\x7d'], none⟩) := by
  simp only [truncLoopF]
  rw [if_pos (by omega), c5current_take, tryCompleteJson_c5tr]
  rfl

theorem partialOrFail_c5 (f : Nat) :
    partialOrFail (f + 1) true c5current 1
      = some ⟨true, some (.jobj []), some ['\x7b', '\x7d'], none⟩ := by
  unfold partialOrFail
  rw [if_pos (⟨rfl, by rw [length_c5current]; omega⟩ : true = true ∧ c5current.length > 1000),
    length_c5current, show (1203 * 4 / 5 : Nat) = 962 from rfl, truncLoopF_c5 f]

theorem c5current_getLast : c5input.getLast? = some 'x' := by
  rw [c5input, show (1200 : Nat) = 1199 + 1 from rfl, List.replicate_succ',
    show ('\x7b' :: '[' :: (List.replicate 1199 'x' ++ ['x']) : Str)
        = ('\x7b' :: '[' :: List.replicate 1199 'x') ++ ['x'] from rfl,
    List.getLast?_concat]

set_option maxRecDepth 4000 in
theorem fixCommonJsonIssues_c5 : fixCommonJsonIssues true c5input = c5current := by
  have hn : c5input.contains '\n' = false :=
    contains_eq_false (fun hm => by
      rcases c5_chars hm with h | h | h <;> exact absurd h (by decide))
  have he1 : endsWithChar '\x7d' c5input = false := by
    simp [endsWithChar, c5current_getLast]
  have hs2 : startsWithChar '[' c5input = false := rfl
  have hcm : stripTrailingCommas (c5input ++ ['\x7d']) = c5input ++ ['\x7d'] :=
    stcGo_no_comma (fun c hc => by
      rcases List.mem_append.mp hc with h1 | h1
      · rcases c5_chars h1 with h | h | h <;> subst h <;> decide
      · simp at h1
        subst h1
        decide)
  unfold fixCommonJsonIssues
  dsimp only
  rw [if_neg (by rw [hn]; decide)]
  rw [trimJS_c5,
    if_pos (⟨rfl, by rw [he1]; decide, rfl⟩ :
      startsWithChar '\x7b' c5input = true ∧ ¬ endsWithChar '\x7d' c5input = true ∧
        true = true),
    if_neg (fun h => absurd h.1 (by rw [hs2]; decide)),
    hcm, c5current]
  rfl

theorem tryParseJson_c5 (f : Nat) :
    tryParseJson (f + 1) true true c5input
      = some ⟨true, some (.jobj []), some ['\x7b', '\x7d'], none⟩ := by
  unfold tryParseJson
  rw [trimJS_c5, if_neg (by rw [length_c5]; omega)]
  dsimp only
  rw [jsonParse_c5]
  dsimp only
  rw [fixCommonJsonIssues_c5, jsonParse_c5current]
  dsimp only
  rw [extractValidJson_c5current]
  dsimp only [List.head?]
  rw [jsonParse_c5current]
  dsimp only
  rw [partialOrFail_c5 f]
  rfl

theorem firstSuccess_c5 (f : Nat) :
    firstSuccess (f + 1) true true [c5input]
      = some (some ⟨true, some (.jobj []), some ['\x7b', '\x7d'], none⟩) := by
  rw [firstSuccess, tryParseJson_c5 f]
  rfl

/-- C5: REFUTED.  The partial-recovery path can succeed with an empty
object.  On `c5input` (the 1202-character string `\x7b[xxx...x` with
`allowPartial` enabled) the truncate-and-reclose loop truncates to 962
characters, `tryCompleteJson` cuts back to the last opener and recloses,
producing the two-character string `\x7b\x7d`, which parses to the empty
object; the guard `completed.valid || Object.keys(parsed).length > 0`
short-circuits on `completed.valid` and returns it as a success, so
`parseLLMJson` returns `success: true` with data `\x7b\x7d` (an empty
container), contradicting the spec's requirement that an empty recovered
shell is treated as a failure and that the routine never returns an empty
object as a success from this path. -/
theorem parseLLMJson_empty_object_success :
    1000 < c5input.length ∧
    parseLLMJson 9 (.tstring c5input) (.vrecord partialOptions)
      = some (.ok ⟨true, some (.jobj []), some ['\x7b', '\x7d'], none⟩) := by
  constructor
  · rw [length_c5]
    omega
  · show parseLLMJsonCore 9 true 5 true (.tstring c5input)
        = some (.ok ⟨true, some (.jobj []), some ['\x7b', '\x7d'], none⟩)
    unfold parseLLMJsonCore
    dsimp only
    rw [if_neg (by decide), extractJson_c5,
      if_pos (show (List.isEmpty ([] : List Str)) = true from rfl),
      extractValidJson_c5, List.nil_append,
      show dedupFirst [c5input] = [c5input] from rfl,
      show (9 : Nat) = 8 + 1 from rfl, firstSuccess_c5 8]

end JParser
